import Mathlib

/-!
# CHIP-8 interpreter: shallow embedding of `chip8.h` / `chip8.cpp`

The class `Chip8` becomes a record of its data members; every member function
becomes a function on that record.  Fixed-size C arrays are functions from the
index to the element, and every array access carries the bound of the array:
an index outside the array is undefined behaviour in the source and is the
result `Outcome.undefined` (or `none` in the loop helpers) here.
Machine integers are natural numbers; `u8` and `u16` are the conversions to
`uint8_t` and `uint16_t`.  The SDL members (`window`, `renderer`) and the
rendering functions carry no interpreter state and are left out.
-/

set_option autoImplicit false

/-- Data members of `class Chip8` (chip8.h, lines 33-43). -/
structure Chip8 where
  /-- Field `uint8_t memory[MEMORY_SIZE]`. -/
  memory : Nat → Nat
  /-- Field `uint8_t V[REGISTER_COUNT]`. -/
  V : Nat → Nat
  /-- Field `uint16_t I`. -/
  I : Nat
  /-- Field `uint16_t pc`. -/
  pc : Nat
  /-- Field `uint16_t stack[STACK_SIZE]`. -/
  stack : Nat → Nat
  /-- Field `uint16_t sp`. -/
  sp : Nat
  /-- Field `uint8_t delay_timer`. -/
  delay_timer : Nat
  /-- Field `uint8_t sound_timer`. -/
  sound_timer : Nat
  /-- Field `uint8_t display[DISPLAY_WIDTH * DISPLAY_HEIGHT]`. -/
  display : Nat → Nat
  /-- Field `uint8_t keypad[16]`. -/
  keypad : Nat → Nat
  /-- Field `uint16_t opcode`. -/
  opcode : Nat

namespace Chip8

def MEMORY_SIZE : Nat := 4096
def REGISTER_COUNT : Nat := 16
def STACK_SIZE : Nat := 16
def DISPLAY_WIDTH : Nat := 64
def DISPLAY_HEIGHT : Nat := 32

/-- Conversion of an integer value to `uint8_t`. -/
def u8 (n : Nat) : Nat := n % 256

/-- Conversion of an integer value to `uint16_t`. -/
def u16 (n : Nat) : Nat := n % 65536

/-- Lines the source writes to `std::cout` / `std::cerr`. -/
inductive Console where
  /-- Line "ROM loaded successfully." on cout (chip8.cpp line 78). -/
  | romLoaded
  /-- Line "Failed to open ROM file: ..." on cerr (line 80). -/
  | romOpenFailed
  /-- Line "Stack underflow!" on cerr (line 180). -/
  | stackUnderflow
  /-- Line "Stack overflow!" on cerr (line 199). -/
  | stackOverflow
  /-- Line "Unknown opcode [family]: opcode" on cerr (lines 188, 308, 394,
  473); `family` is `none` for the untagged message of the outer `default`
  (line 479). -/
  | unknownOpcode (family : Option Nat) (opcode : Nat)
  /-- Line "BEEP!" on cout (line 490). -/
  | beep
  deriving DecidableEq, Repr

/-- How a call of a member function ends. -/
inductive Outcome where
  /-- The call returns; `s` is the object afterwards, `out` what was printed. -/
  | ok (s : Chip8) (out : List Console)
  /-- The call ends the process with `exit(1)`; `s` is the object at that point. -/
  | exited (s : Chip8) (out : List Console)
  /-- The call indexes an array outside its bounds (undefined behaviour). -/
  | undefined

/-- The value ranges of the C++ field types: `uint8_t` cells and timers,
`uint16_t` for `I`, `pc`, `sp`, `opcode` and the stack slots. -/
structure WF (s : Chip8) : Prop where
  memory_lt : ∀ a, a < MEMORY_SIZE → s.memory a < 256
  V_lt : ∀ r, r < REGISTER_COUNT → s.V r < 256
  I_lt : s.I < 65536
  pc_lt : s.pc < 65536
  stack_lt : ∀ k, k < STACK_SIZE → s.stack k < 65536
  sp_lt : s.sp < 65536
  delay_lt : s.delay_timer < 256
  sound_lt : s.sound_timer < 256
  display_lt : ∀ i, i < DISPLAY_WIDTH * DISPLAY_HEIGHT → s.display i < 256
  keypad_lt : ∀ k, k < 16 → s.keypad k < 256
  opcode_lt : s.opcode < 65536

/-- Local array `fontset[80]` of `Chip8::loadFontset` (lines 38-55). -/
def fontset : List Nat :=
  [0xF0, 0x90, 0x90, 0x90, 0xF0,
   0x20, 0x60, 0x20, 0x20, 0x70,
   0xF0, 0x10, 0xF0, 0x80, 0xF0,
   0xF0, 0x10, 0xF0, 0x10, 0xF0,
   0x90, 0x90, 0xF0, 0x10, 0x10,
   0xF0, 0x80, 0xF0, 0x10, 0xF0,
   0xF0, 0x80, 0xF0, 0x90, 0xF0,
   0xF0, 0x10, 0x20, 0x40, 0x40,
   0xF0, 0x90, 0xF0, 0x90, 0xF0,
   0xF0, 0x90, 0xF0, 0x10, 0xF0,
   0xF0, 0x90, 0xF0, 0x90, 0x90,
   0xE0, 0x90, 0xE0, 0x90, 0xE0,
   0xF0, 0x80, 0x80, 0x80, 0xF0,
   0xE0, 0x90, 0x90, 0x90, 0xE0,
   0xF0, 0x80, 0xF0, 0x80, 0xF0,
   0xF0, 0x80, 0xF0, 0x80, 0x80]

/-- `Chip8::loadFontset` (lines 57-60): `memory[0x50 + i] = fontset[i]` for
`i = 0 .. 79`; all indices are inside `memory`. -/
def loadFontset (s : Chip8) : Chip8 :=
  (List.range 80).foldl
    (fun t i => { t with memory := Function.update t.memory (0x50 + i) (fontset.getD i 0) }) s

/-- `Chip8::Chip8` (lines 13-30), without the SDL set-up of
`initializeGraphics`.  The constructor assigns every member but `opcode`; the
value 0 stands for its unassigned content, which no code reads:
`emulateCycle` assigns `opcode` from `fetchOpcode` before `executeOpcode`
decodes it. -/
def ctor : Chip8 :=
  loadFontset
    { memory := fun _ => 0, V := fun _ => 0, I := 0, pc := 0x200, stack := fun _ => 0,
      sp := 0, delay_timer := 0, sound_timer := 0, display := fun _ => 0,
      keypad := fun _ => 0, opcode := 0 }

/-- One iteration of the copy loop of `Chip8::loadROM` (line 75):
`memory[0x200 + i] = buffer[i]`. -/
def loadByte (buffer : List Nat) (s : Chip8) (i : Nat) : Option Chip8 :=
  if 0x200 + i < MEMORY_SIZE then
    some { s with memory := Function.update s.memory (0x200 + i) (u8 (buffer.getD i 0)) }
  else none

/-- `Chip8::loadROM` (lines 63-82).  `file` is `none` when the file cannot be
opened and otherwise the bytes of the file, `size` being their number. -/
def loadROM (file : Option (List Nat)) (s : Chip8) : Outcome :=
  match file with
  | some buffer =>
    match (List.range buffer.length).foldlM (loadByte buffer) s with
    | some t => .ok t [.romLoaded]
    | none => .undefined
  | none => .ok s [.romOpenFailed]

/-- `Chip8::fetchOpcode` (lines 166-168):
`opcode = memory[pc] << 8 | memory[pc + 1]`. -/
def fetchOpcode (s : Chip8) : Option Chip8 :=
  if s.pc + 1 < MEMORY_SIZE then
    some { s with opcode := u16 ((s.memory s.pc <<< 8) ||| s.memory (s.pc + 1)) }
  else none

/-- Body of the inner loop of DXYN (lines 356-366) for one `col`; `X`, `Y`
are the coordinates read from the registers before the loops.  `^= 1` on a
`uint8_t` cell flips its lowest bit and cannot leave the byte range. -/
def drawCol (X Y spriteByte row : Nat) (s : Chip8) (col : Nat) : Chip8 :=
  let spritePixel := spriteByte &&& (0x80 >>> col)
  let displayX := (X + col) % DISPLAY_WIDTH
  let displayY := (Y + row) % DISPLAY_HEIGHT
  let displayIndex := displayY * DISPLAY_WIDTH + displayX
  if spritePixel ≠ 0 then
    let s1 := if s.display displayIndex = 1 then { s with V := Function.update s.V 0xF 1 } else s
    { s1 with display := Function.update s1.display displayIndex (s1.display displayIndex ^^^ 1) }
  else s

/-- Body of the outer loop of DXYN (lines 354-367) for one `row`: reads
`memory[I + row]` and runs the inner loop over `col = 0 .. 7`. -/
def drawRow (X Y : Nat) (s : Chip8) (row : Nat) : Option Chip8 :=
  if s.I + row < MEMORY_SIZE then
    some ((List.range 8).foldl (drawCol X Y (s.memory (s.I + row)) row) s)
  else none

/-- Body of the loop of FX55 (line 459): `memory[I + i] = V[i]`. -/
def storeReg (s : Chip8) (i : Nat) : Option Chip8 :=
  if s.I + i < MEMORY_SIZE then
    some { s with memory := Function.update s.memory (s.I + i) (s.V i) }
  else none

/-- Body of the loop of FX65 (line 467): `V[i] = memory[I + i]`. -/
def loadReg (s : Chip8) (i : Nat) : Option Chip8 :=
  if s.I + i < MEMORY_SIZE then
    some { s with V := Function.update s.V i (s.memory (s.I + i)) }
  else none

/-- Case `0x0000` of `Chip8::executeOpcode` (lines 172-191). -/
def exec0 (s : Chip8) : Outcome :=
  let sub := s.opcode &&& 0x00FF
  if sub = 0x00E0 then
    .ok { s with display := fun _ => 0, pc := u16 (s.pc + 2) } []
  else if sub = 0x00EE then
    if s.sp = 0 then .exited s [.stackUnderflow]
    else if s.sp - 1 < STACK_SIZE then
      .ok { s with sp := s.sp - 1, pc := u16 (s.stack (s.sp - 1) + 2) } []
    else .undefined
  else .ok { s with pc := u16 (s.pc + 2) } [.unknownOpcode (some 0x0000) s.opcode]

/-- Case `0x8000` of `Chip8::executeOpcode` (lines 256-312).  `V1` is the
register file after the write to `V[0xF]`, which the statements that follow
read.  A `uint8_t` difference `a - b` of two bytes is `u8 (a + 256 - b)`. -/
def exec8 (s : Chip8) : Outcome :=
  let X := (s.opcode &&& 0x0F00) >>> 8
  let Y := (s.opcode &&& 0x00F0) >>> 4
  let sub := s.opcode &&& 0x000F
  if sub = 0x0000 then
    .ok { s with V := Function.update s.V X (s.V Y), pc := u16 (s.pc + 2) } []
  else if sub = 0x0001 then
    .ok { s with V := Function.update s.V X (s.V X ||| s.V Y), pc := u16 (s.pc + 2) } []
  else if sub = 0x0002 then
    .ok { s with V := Function.update s.V X (s.V X &&& s.V Y), pc := u16 (s.pc + 2) } []
  else if sub = 0x0003 then
    .ok { s with V := Function.update s.V X (s.V X ^^^ s.V Y), pc := u16 (s.pc + 2) } []
  else if sub = 0x0004 then
    let sum := u16 (s.V X + s.V Y)
    let V1 := Function.update s.V 0xF (if sum > 0xFF then 1 else 0)
    .ok { s with V := Function.update V1 X (u8 (sum &&& 0xFF)), pc := u16 (s.pc + 2) } []
  else if sub = 0x0005 then
    let V1 := Function.update s.V 0xF (if s.V X ≥ s.V Y then 1 else 0)
    .ok { s with V := Function.update V1 X (u8 (V1 X + 256 - V1 Y)), pc := u16 (s.pc + 2) } []
  else if sub = 0x0006 then
    let V1 := Function.update s.V 0xF (s.V X &&& 0x1)
    .ok { s with V := Function.update V1 X (V1 X >>> 1), pc := u16 (s.pc + 2) } []
  else if sub = 0x0007 then
    let V1 := Function.update s.V 0xF (if s.V Y ≥ s.V X then 1 else 0)
    .ok { s with V := Function.update V1 X (u8 (V1 Y + 256 - V1 X)), pc := u16 (s.pc + 2) } []
  else if sub = 0x000E then
    let V1 := Function.update s.V 0xF ((s.V X &&& 0x80) >>> 7)
    .ok { s with V := Function.update V1 X (u8 (V1 X <<< 1)), pc := u16 (s.pc + 2) } []
  else .ok { s with pc := u16 (s.pc + 2) } [.unknownOpcode (some 0x8000) s.opcode]

/-- Case `0xD000` of `Chip8::executeOpcode` (lines 347-371). -/
def execD (s : Chip8) : Outcome :=
  let X := s.V ((s.opcode &&& 0x0F00) >>> 8)
  let Y := s.V ((s.opcode &&& 0x00F0) >>> 4)
  let height := s.opcode &&& 0x000F
  let s0 := { s with V := Function.update s.V 0xF 0 }
  match (List.range height).foldlM (drawRow X Y) s0 with
  | some t => .ok { t with pc := u16 (t.pc + 2) } []
  | none => .undefined

/-- Case `0xE000` of `Chip8::executeOpcode` (lines 373-397). -/
def execE (s : Chip8) : Outcome :=
  let sub := s.opcode &&& 0x00FF
  let X := (s.opcode &&& 0x0F00) >>> 8
  if sub = 0x009E then
    if s.V X < 16 then
      if s.keypad (s.V X) ≠ 0 then .ok { s with pc := u16 (s.pc + 4) } []
      else .ok { s with pc := u16 (s.pc + 2) } []
    else .undefined
  else if sub = 0x00A1 then
    if s.V X < 16 then
      if s.keypad (s.V X) = 0 then .ok { s with pc := u16 (s.pc + 4) } []
      else .ok { s with pc := u16 (s.pc + 2) } []
    else .undefined
  else .ok { s with pc := u16 (s.pc + 2) } [.unknownOpcode (some 0xE000) s.opcode]

/-- Case `0xF000` of `Chip8::executeOpcode` (lines 399-476). -/
def execF (s : Chip8) : Outcome :=
  let sub := s.opcode &&& 0x00FF
  let X := (s.opcode &&& 0x0F00) >>> 8
  if sub = 0x0007 then
    .ok { s with V := Function.update s.V X s.delay_timer, pc := u16 (s.pc + 2) } []
  else if sub = 0x000A then
    match (List.range 16).find? (fun i => decide (s.keypad i ≠ 0)) with
    | some i => .ok { s with V := Function.update s.V X i, pc := u16 (s.pc + 2) } []
    | none => .ok s []
  else if sub = 0x0015 then
    .ok { s with delay_timer := s.V X, pc := u16 (s.pc + 2) } []
  else if sub = 0x0018 then
    .ok { s with sound_timer := s.V X, pc := u16 (s.pc + 2) } []
  else if sub = 0x001E then
    .ok { s with I := u16 (s.I + s.V X), pc := u16 (s.pc + 2) } []
  else if sub = 0x0029 then
    .ok { s with I := u16 (s.V X * 5), pc := u16 (s.pc + 2) } []
  else if sub = 0x0033 then
    let value := s.V X
    if s.I + 2 < MEMORY_SIZE then
      let m1 := Function.update s.memory s.I (value / 100)
      let m2 := Function.update m1 (s.I + 1) ((value / 10) % 10)
      let m3 := Function.update m2 (s.I + 2) (value % 10)
      .ok { s with memory := m3, pc := u16 (s.pc + 2) } []
    else .undefined
  else if sub = 0x0055 then
    match (List.range (X + 1)).foldlM storeReg s with
    | some t => .ok { t with pc := u16 (t.pc + 2) } []
    | none => .undefined
  else if sub = 0x0065 then
    match (List.range (X + 1)).foldlM loadReg s with
    | some t => .ok { t with pc := u16 (t.pc + 2) } []
    | none => .undefined
  else .ok { s with pc := u16 (s.pc + 2) } [.unknownOpcode (some 0xF000) s.opcode]

/-- `Chip8::executeOpcode` (lines 170-482).  `rnd` is the value that
`dis(gen)` returns in case `0xC000`. -/
def executeOpcode (rnd : Nat) (s : Chip8) : Outcome :=
  let family := s.opcode &&& 0xF000
  if family = 0x0000 then exec0 s
  else if family = 0x1000 then
    .ok { s with pc := s.opcode &&& 0x0FFF } []
  else if family = 0x2000 then
    if s.sp ≥ STACK_SIZE then .exited s [.stackOverflow]
    else
      .ok { s with stack := Function.update s.stack s.sp s.pc, sp := s.sp + 1,
                   pc := s.opcode &&& 0x0FFF } []
  else if family = 0x3000 then
    let X := (s.opcode &&& 0x0F00) >>> 8
    let NN := s.opcode &&& 0x00FF
    if s.V X = NN then .ok { s with pc := u16 (s.pc + 4) } []
    else .ok { s with pc := u16 (s.pc + 2) } []
  else if family = 0x4000 then
    let X := (s.opcode &&& 0x0F00) >>> 8
    let NN := s.opcode &&& 0x00FF
    if s.V X ≠ NN then .ok { s with pc := u16 (s.pc + 4) } []
    else .ok { s with pc := u16 (s.pc + 2) } []
  else if family = 0x5000 then
    let X := (s.opcode &&& 0x0F00) >>> 8
    let Y := (s.opcode &&& 0x00F0) >>> 4
    if s.V X = s.V Y then .ok { s with pc := u16 (s.pc + 4) } []
    else .ok { s with pc := u16 (s.pc + 2) } []
  else if family = 0x6000 then
    let X := (s.opcode &&& 0x0F00) >>> 8
    let NN := s.opcode &&& 0x00FF
    .ok { s with V := Function.update s.V X NN, pc := u16 (s.pc + 2) } []
  else if family = 0x7000 then
    let X := (s.opcode &&& 0x0F00) >>> 8
    let NN := s.opcode &&& 0x00FF
    .ok { s with V := Function.update s.V X (u8 (s.V X + NN)), pc := u16 (s.pc + 2) } []
  else if family = 0x8000 then exec8 s
  else if family = 0x9000 then
    let X := (s.opcode &&& 0x0F00) >>> 8
    let Y := (s.opcode &&& 0x00F0) >>> 4
    if s.V X ≠ s.V Y then .ok { s with pc := u16 (s.pc + 4) } []
    else .ok { s with pc := u16 (s.pc + 2) } []
  else if family = 0xA000 then
    .ok { s with I := s.opcode &&& 0x0FFF, pc := u16 (s.pc + 2) } []
  else if family = 0xB000 then
    .ok { s with pc := u16 ((s.opcode &&& 0x0FFF) + s.V 0) } []
  else if family = 0xC000 then
    let X := (s.opcode &&& 0x0F00) >>> 8
    let NN := s.opcode &&& 0x00FF
    .ok { s with V := Function.update s.V X (u8 (rnd &&& NN)), pc := u16 (s.pc + 2) } []
  else if family = 0xD000 then execD s
  else if family = 0xE000 then execE s
  else if family = 0xF000 then execF s
  else .ok { s with pc := u16 (s.pc + 2) } [.unknownOpcode none s.opcode]

/-- `Chip8::emulateCycle` (lines 161-164): `fetchOpcode(); executeOpcode();`. -/
def emulateCycle (rnd : Nat) (s : Chip8) : Outcome :=
  match fetchOpcode s with
  | some t => executeOpcode rnd t
  | none => .undefined

/-- `Chip8::updateTimers` (lines 484-494); the second component is what the
call prints. -/
def updateTimers (s : Chip8) : Chip8 × List Console :=
  let s1 := if s.delay_timer > 0 then { s with delay_timer := s.delay_timer - 1 } else s
  if s1.sound_timer > 0 then
    let out := if s1.sound_timer = 1 then [Console.beep] else []
    ({ s1 with sound_timer := s1.sound_timer - 1 }, out)
  else (s1, [])

/-- `Chip8::handleInput` (lines 134-159).  `pressed` / `released` are the two
tests of `event.type`; `key` is the keypad index the `switch` selects for
`event.key.keysym.sym` (`none` for the `default` label). -/
def handleInput (pressed released : Bool) (key : Option Nat) (s : Chip8) : Chip8 :=
  if pressed || released then
    match key with
    | some k => { s with keypad := Function.update s.keypad k (if pressed then 1 else 0) }
    | none => s
  else s

/-- Calls `emulateCycle` `n` times in a row, as the loop of `main` does;
`rnd k` is the random draw available to the `k`-th call.  The run stops at the
first call that does not return. -/
def emulateCycles (rnd : Nat → Nat) : Nat → Chip8 → Outcome
  | 0, s => .ok s []
  | n + 1, s =>
    match emulateCycle (rnd 0) s with
    | .ok t out =>
      match emulateCycles (fun k => rnd (k + 1)) n t with
      | .ok u out2 => .ok u (out ++ out2)
      | .exited u out2 => .exited u (out ++ out2)
      | .undefined => .undefined
    | r => r

/-- Calls `updateTimers` `n` times in a row and collects what is printed. -/
def updateTimersN : Nat → Chip8 → Chip8 × List Console
  | 0, s => (s, [])
  | n + 1, s =>
    let r := updateTimers s
    let r2 := updateTimersN n r.1
    (r2.1, r.2 ++ r2.2)

/-! ## Specification vocabulary and example states -/

/-- The two bytes at `pc` are inside `memory` and are the big-endian
encoding of `op`: the next `emulateCycle` fetches `op`. -/
def Fetches (s : Chip8) (op : Nat) : Prop :=
  s.pc + 1 < MEMORY_SIZE ∧ s.memory s.pc = op / 256 ∧ s.memory (s.pc + 1) = op % 256

instance (s : Chip8) (op : Nat) : Decidable (s.Fetches op) :=
  inferInstanceAs (Decidable
    (s.pc + 1 < MEMORY_SIZE ∧ s.memory s.pc = op / 256 ∧ s.memory (s.pc + 1) = op % 256))

/-- Example state: the bytes `prog` at address 0x200 and zero elsewhere in
memory, the registers `regs` (zero beyond the list), index register `i`,
pc = 0x200, empty stack, timers zero, display and keypad all zero. -/
def demo (prog regs : List Nat) (i : Nat) : Chip8 :=
  { memory := fun a => if 0x200 ≤ a then prog.getD (a - 0x200) 0 else 0
    V := fun r => regs.getD r 0
    I := i, pc := 0x200, stack := fun _ => 0, sp := 0, delay_timer := 0, sound_timer := 0
    display := fun _ => 0, keypad := fun _ => 0, opcode := 0 }

/-- Example state `demo prog regs i` with the keys listed in `keys` held
down. -/
def demoKeys (prog regs : List Nat) (i : Nat) (keys : List Nat) : Chip8 :=
  { demo prog regs i with keypad := fun k => if k ∈ keys then 1 else 0 }

/-- Framebuffer index that DXYN computes (lines 357-359) for row `r` and
column `c` of a sprite drawn at the register values `x`, `y`. -/
def pixelIndex (x y r c : Nat) : Nat :=
  ((y + r) % DISPLAY_HEIGHT) * DISPLAY_WIDTH + (x + c) % DISPLAY_WIDTH

/-- What the draw loops of DXYN leave alone: `t` differs from `s` at most in
the framebuffer and in register VF. -/
def DrawFrame (s t : Chip8) : Prop :=
  t = { s with display := t.display, V := t.V } ∧ ∀ k, k ≠ 0xF → t.V k = s.V k

/-- Some set pixel of the `n`-row sprite at `memory[I ..]`, drawn at the
register values `x`, `y`, falls on framebuffer cell `i`.  The test on the
sprite byte is the one DXYN makes (line 356). -/
def Covers (s : Chip8) (x y n i : Nat) : Prop :=
  ∃ r, r < n ∧ ∃ c, c < 8 ∧ s.memory (s.I + r) &&& (0x80 >>> c) ≠ 0 ∧ pixelIndex x y r c = i

/-- Some set pixel of the `n`-row sprite at `memory[I ..]`, drawn at the
register values `x`, `y`, falls on a framebuffer cell of `s` that holds 1. -/
def Collides (s : Chip8) (x y n : Nat) : Prop :=
  ∃ r, r < n ∧ ∃ c, c < 8 ∧ s.memory (s.I + r) &&& (0x80 >>> c) ≠ 0 ∧
    s.display (pixelIndex x y r c) = 1

instance (s : Chip8) (x y n i : Nat) : Decidable (Covers s x y n i) :=
  inferInstanceAs (Decidable (∃ r, r < n ∧ ∃ c, c < 8 ∧
    s.memory (s.I + r) &&& (0x80 >>> c) ≠ 0 ∧ pixelIndex x y r c = i))

instance (s : Chip8) (x y n : Nat) : Decidable (Collides s x y n) :=
  inferInstanceAs (Decidable (∃ r, r < n ∧ ∃ c, c < 8 ∧
    s.memory (s.I + r) &&& (0x80 >>> c) ≠ 0 ∧ s.display (pixelIndex x y r c) = 1))

/-- Example state `demo prog regs i` with the framebuffer cells listed in
`lit` holding 1. -/
def demoLit (prog regs : List Nat) (i : Nat) (lit : List Nat) : Chip8 :=
  { demo prog regs i with display := fun k => if k ∈ lit then 1 else 0 }

/-- The call ends the process with `exit(1)`: the engine halts. -/
def Outcome.halts : Outcome → Prop
  | .exited _ _ => True
  | .ok _ _ => False
  | .undefined => False

instance (r : Outcome) : Decidable r.halts :=
  match r with
  | .exited _ _ => isTrue trivial
  | .ok _ _ => isFalse id
  | .undefined => isFalse id

/-- Example state `demo prog regs i` with the return addresses `stk` on the
stack (slot `k` holds `stk[k]`) and sp equal to their number. -/
def demoStack (prog regs : List Nat) (i : Nat) (stk : List Nat) : Chip8 :=
  { demo prog regs i with stack := fun k => stk.getD k 0, sp := stk.length }

/-- States of the engine that the driver in `main` can produce: the
constructed engine after one `loadROM` call that returns, followed by any
number of `emulateCycle` calls that return (they neither call `exit(1)` nor
leave an array), `updateTimers` calls and `handleInput` calls, in any
order. -/
inductive Reachable : Chip8 → Prop where
  /-- The first thing `main` does: construct, then load. -/
  | load (file : Option (List Nat)) (s : Chip8) (out : List Console) :
      loadROM file ctor = .ok s out → Reachable s
  /-- One `emulateCycle` call with random draw `rnd` that returns. -/
  | cycle (rnd : Nat) (s t : Chip8) (out : List Console) :
      Reachable s → emulateCycle rnd s = .ok t out → Reachable t
  /-- One `updateTimers` call. -/
  | timers (s : Chip8) : Reachable s → Reachable (updateTimers s).1
  /-- One `handleInput` call. -/
  | input (pressed released : Bool) (key : Option Nat) (s : Chip8) :
      Reachable s → Reachable (handleInput pressed released key s)

/-- How one opcode can move sp: not at all, up by one from below 16 (2NNN),
or down by one from above 0 (00EE). -/
def SpStep (s t : Chip8) : Prop :=
  t.sp = s.sp ∨ (s.sp < 16 ∧ t.sp = s.sp + 1) ∨ (0 < s.sp ∧ t.sp = s.sp - 1)

/-- The outcome `r` of a call made in state `s`, if the call returns, moved
sp by at most one `SpStep`. -/
def SpStepOutcome (s : Chip8) (r : Outcome) : Prop :=
  match r with
  | .ok t _ => SpStep s t
  | .exited _ _ => True
  | .undefined => True

/-- The constructed engine after `loadROM` has copied the bytes `prog` (at
most `MEMORY_SIZE - 0x200` of them) to address 0x200. -/
def loadedEngine (prog : List Nat) : Chip8 :=
  { ctor with
    memory := fun a =>
      if 0x200 ≤ a ∧ a < 0x200 + prog.length then u8 (prog.getD (a - 0x200) 0)
      else ctor.memory a }

end Chip8

/-! ## Decoding and fetch lemmas -/

namespace Chip8

theorem shiftRight_and (a b i : Nat) : (a &&& b) >>> i = (a >>> i) &&& (b >>> i) := by
  apply Nat.eq_of_testBit_eq
  intro j
  simp only [Nat.testBit_shiftRight, Nat.testBit_and]

theorem and_mod_pow (a b k : Nat) : (a &&& b) % 2 ^ k = (a % 2 ^ k) &&& (b % 2 ^ k) := by
  apply Nat.eq_of_testBit_eq
  intro j
  by_cases h : j < k <;> simp [h, Nat.testBit_mod_two_pow, Nat.testBit_and]

theorem and_F000 (n : Nat) : n &&& 0xF000 = (n / 4096 % 16) * 4096 := by
  have h1 : (n &&& 0xF000) % 4096 = 0 := by
    have := and_mod_pow n 0xF000 12
    simpa using this
  have h2 : (n &&& 0xF000) / 4096 = n / 4096 % 16 := by
    have := shiftRight_and n 0xF000 12
    simp only [Nat.shiftRight_eq_div_pow] at this
    have e : (15 : Nat) = 2 ^ 4 - 1 := by norm_num
    norm_num at this
    rw [this, e, Nat.and_pow_two_sub_one_eq_mod]
  omega

theorem and_0FFF (n : Nat) : n &&& 0x0FFF = n % 4096 := by
  have e : (0x0FFF : Nat) = 2 ^ 12 - 1 := by norm_num
  rw [e, Nat.and_pow_two_sub_one_eq_mod]

theorem and_00FF (n : Nat) : n &&& 0x00FF = n % 256 := by
  have e : (0x00FF : Nat) = 2 ^ 8 - 1 := by norm_num
  rw [e, Nat.and_pow_two_sub_one_eq_mod]

theorem and_000F (n : Nat) : n &&& 0x000F = n % 16 := by
  have e : (0x000F : Nat) = 2 ^ 4 - 1 := by norm_num
  rw [e, Nat.and_pow_two_sub_one_eq_mod]

theorem and_0F00_shift (n : Nat) : (n &&& 0x0F00) >>> 8 = n / 256 % 16 := by
  rw [shiftRight_and]
  have e : (0x0F00 >>> 8 : Nat) = 2 ^ 4 - 1 := by decide
  rw [e, Nat.and_pow_two_sub_one_eq_mod, Nat.shiftRight_eq_div_pow]

theorem and_00F0_shift (n : Nat) : (n &&& 0x00F0) >>> 4 = n / 16 % 16 := by
  rw [shiftRight_and]
  have e : (0x00F0 >>> 4 : Nat) = 2 ^ 4 - 1 := by decide
  rw [e, Nat.and_pow_two_sub_one_eq_mod, Nat.shiftRight_eq_div_pow]

theorem shl8_or (a b : Nat) (hb : b < 256) : (a <<< 8) ||| b = a * 256 + b := by
  rw [Nat.shiftLeft_eq]
  have := Nat.mul_add_lt_is_or (i := 8) (b := b) (by simpa using hb) a
  rw [Nat.mul_comm a, ← this]

/-- Fetching from a state whose bytes at `pc` encode `op` stores `op` in the
`opcode` field and changes nothing else. -/
theorem fetchOpcode_of_fetches (s : Chip8) (op : Nat) (hop : op < 65536)
    (h : s.Fetches op) : fetchOpcode s = some { s with opcode := op } := by
  obtain ⟨h1, h2, h3⟩ := h
  have hb : s.memory (s.pc + 1) < 256 := by omega
  have e : u16 (op / 256 * 256 + op % 256) = op := by simp only [u16]; omega
  rw [fetchOpcode, if_pos h1, shl8_or _ _ hb, h2, h3, e]

theorem executeOpcode_family8 (rnd : Nat) (s : Chip8) (h : s.opcode / 4096 % 16 = 8) :
    executeOpcode rnd s = exec8 s := by
  simp [executeOpcode, and_F000, h]

theorem update_update_ne (V : Nat → Nat) (X v w : Nat) (h : X ≠ 0xF) :
    Function.update (Function.update V 0xF v) X w 0xF = v := by
  rw [Function.update_noteq (Ne.symm h), Function.update_same]

theorem getD_lt_of_forall (l : List Nat) (k b : Nat) (h : ∀ x ∈ l, x < b) (hb : 0 < b) :
    l.getD k 0 < b := by
  by_cases hk : k < l.length
  · rw [List.getD_eq_getElem _ _ hk]
    exact h _ (List.getElem_mem _)
  · rw [List.getD_eq_default _ _ (by omega)]
    exact hb

/-- The example states are well-formed when the listed bytes are bytes. -/
theorem demo_WF (prog regs : List Nat) (i : Nat) (hp : ∀ x ∈ prog, x < 256)
    (hr : ∀ x ∈ regs, x < 256) (hi : i < 65536) : (demo prog regs i).WF where
  memory_lt := by
    intro a _
    simp only [demo]
    split
    · exact getD_lt_of_forall _ _ _ hp (by omega)
    · omega
  V_lt := fun r _ => getD_lt_of_forall _ _ _ hr (by omega)
  I_lt := hi
  pc_lt := by simp [demo]
  stack_lt := by simp [demo]
  sp_lt := by simp [demo]
  delay_lt := by simp [demo]
  sound_lt := by simp [demo]
  display_lt := by simp [demo]
  keypad_lt := by simp [demo]
  opcode_lt := by simp [demo]

/-! ## Program load -/

theorem loadROM_loop (buffer : List Nat) (s : Chip8) (n : Nat) (hn : 0x200 + n ≤ MEMORY_SIZE) :
    (List.range n).foldlM (loadByte buffer) s =
      some { s with memory := fun a =>
        if 0x200 ≤ a ∧ a < 0x200 + n then u8 (buffer.getD (a - 0x200) 0) else s.memory a } := by
  induction n with
  | zero =>
    simp only [List.range_zero, List.foldlM_nil]
    have : (fun a => if 0x200 ≤ a ∧ a < 0x200 + 0 then u8 (buffer.getD (a - 0x200) 0)
        else s.memory a) = s.memory := by
      funext a
      have : ¬ (0x200 ≤ a ∧ a < 0x200 + 0) := by omega
      rw [if_neg this]
    rw [this]; rfl
  | succ n ih =>
    have hn1 : 0x200 + n ≤ MEMORY_SIZE := by omega
    have hlt : 0x200 + n < MEMORY_SIZE := by omega
    rw [List.range_succ, List.foldlM_append, ih hn1]
    simp only [Option.some_bind, List.foldlM_cons, List.foldlM_nil, loadByte, if_pos hlt]
    simp only [Option.bind_eq_bind, Option.some_bind, Option.pure_def, Option.some.injEq]
    congr 1
    funext a
    by_cases h : a = 0x200 + n
    · subst h
      simp
    · rw [Function.update_noteq h]
      by_cases h2 : 0x200 ≤ a ∧ a < 0x200 + n
      · have h3 : 0x200 ≤ a ∧ a < 0x200 + (n + 1) := by omega
        rw [if_pos h2, if_pos h3]
      · have h3 : ¬ (0x200 ≤ a ∧ a < 0x200 + (n + 1)) := by omega
        rw [if_neg h2, if_neg h3]

/-- C1: loading a byte sequence `b` of length at most `4096 - 0x200` returns,
puts `b[k]` at `memory[0x200 + k]` for every `k` in range and leaves every
other memory cell (the font area included) as it was. -/
theorem C1_loadROM_splices_program (s : Chip8) (b : List Nat)
    (hlen : b.length ≤ 4096 - 0x200) (hbytes : ∀ x ∈ b, x < 256) :
    ∃ t, loadROM (some b) s = .ok t [.romLoaded] ∧
      (∀ k (h : k < b.length), t.memory (0x200 + k) = b[k]) ∧
      (∀ a, ¬ (0x200 ≤ a ∧ a < 0x200 + b.length) → t.memory a = s.memory a) ∧
      (∀ a, 0x50 ≤ a → a ≤ 0x9F → t.memory a = s.memory a) := by
  have hn : 0x200 + b.length ≤ MEMORY_SIZE := by simp only [MEMORY_SIZE]; omega
  refine ⟨_, by simp only [loadROM, loadROM_loop b s b.length hn]; rfl, ?_, ?_, ?_⟩
  · intro k h
    have h1 : 0x200 ≤ 0x200 + k ∧ 0x200 + k < 0x200 + b.length := by omega
    simp only [if_pos h1, Nat.add_sub_cancel_left, List.getD_eq_getElem _ _ h, u8]
    exact Nat.mod_eq_of_lt (hbytes _ (List.getElem_mem _))
  · intro a ha
    simp only [if_neg ha]
  · intro a h1 h2
    have ha : ¬ (0x200 ≤ a ∧ a < 0x200 + b.length) := by omega
    simp only [if_neg ha]

theorem C1_loadROM_splices_program_witness :
    ∃ t, loadROM (some [0x60, 0x2A, 0x12, 0x00]) ctor = .ok t [.romLoaded] ∧
      (∀ k (h : k < [0x60, 0x2A, 0x12, 0x00].length),
        t.memory (0x200 + k) = [0x60, 0x2A, 0x12, 0x00][k]) ∧
      (∀ a, ¬ (0x200 ≤ a ∧ a < 0x200 + [0x60, 0x2A, 0x12, 0x00].length) →
        t.memory a = ctor.memory a) ∧
      (∀ a, 0x50 ≤ a → a ≤ 0x9F → t.memory a = ctor.memory a) :=
  C1_loadROM_splices_program ctor [0x60, 0x2A, 0x12, 0x00] (by decide) (by decide)

/-! ## Arithmetic opcodes -/

/-- Symbolic execution of one cycle on 8XY4. -/
theorem emulateCycle_8XY4 (rnd : Nat) (s : Chip8) (X Y : Nat) (hX : X < 16) (hY : Y < 16)
    (hop : s.Fetches (0x8004 + 0x100 * X + 0x10 * Y)) :
    emulateCycle rnd s = .ok { s with
      opcode := 0x8004 + 0x100 * X + 0x10 * Y
      V := Function.update
        (Function.update s.V 0xF (if u16 (s.V X + s.V Y) > 0xFF then 1 else 0)) X
        (u8 (u16 (s.V X + s.V Y) % 256))
      pc := u16 (s.pc + 2) } [] := by
  have hlt : 0x8004 + 0x100 * X + 0x10 * Y < 65536 := by omega
  have hfam : (0x8004 + 0x100 * X + 0x10 * Y) / 4096 % 16 = 8 := by omega
  have hsub : (0x8004 + 0x100 * X + 0x10 * Y) % 16 = 4 := by omega
  have hXd : (0x8004 + 0x100 * X + 0x10 * Y) / 256 % 16 = X := by omega
  have hYd : (0x8004 + 0x100 * X + 0x10 * Y) / 16 % 16 = Y := by omega
  rw [emulateCycle, fetchOpcode_of_fetches s _ hlt hop]
  simp only []
  rw [executeOpcode_family8 _ _ hfam]
  simp [exec8, and_000F, and_0F00_shift, and_00F0_shift, and_00FF, hsub, hXd, hYd]

/-- C2: one step on 8XY4 with X different from 0xF leaves the low byte of
VX + VY in VX and the carry in VF, so that 256 * VF + VX is the full sum, and
advances pc by 2. -/
theorem C2_add_with_carry (rnd : Nat) (s : Chip8) (X Y : Nat) (hwf : s.WF)
    (hX : X < 16) (hXF : X ≠ 0xF) (hY : Y < 16)
    (hop : s.Fetches (0x8004 + 0x100 * X + 0x10 * Y)) :
    ∃ t, emulateCycle rnd s = .ok t [] ∧
      t.V X = (s.V X + s.V Y) % 256 ∧
      t.V 0xF = (if s.V X + s.V Y > 255 then 1 else 0) ∧
      256 * t.V 0xF + t.V X = s.V X + s.V Y ∧
      t.pc = s.pc + 2 := by
  have hpc : s.pc + 1 < 4096 := hop.1
  have hx := hwf.V_lt X hX
  have hy := hwf.V_lt Y hY
  refine ⟨_, emulateCycle_8XY4 rnd s X Y hX hY hop, ?_, ?_, ?_, ?_⟩
  · simp only [Function.update_same, u8, u16]; omega
  · simp only [update_update_ne _ _ _ _ hXF, u16]
    split <;> split <;> omega
  · simp only [update_update_ne _ _ _ _ hXF, Function.update_same, u8, u16]
    split <;> omega
  · simp only [u16]
    omega

theorem C2_add_with_carry_witness :
    ∃ t, emulateCycle 0 (demo [0x80, 0x14] [0xFF, 0x01] 0) = .ok t [] ∧
      t.V 0 = 0x00 ∧ t.V 0xF = 1 ∧ 256 * t.V 0xF + t.V 0 = 0xFF + 0x01 ∧ t.pc = 0x202 :=
  C2_add_with_carry 0 (demo [0x80, 0x14] [0xFF, 0x01] 0) 0 1
    (demo_WF _ _ _ (by decide) (by decide) (by decide)) (by decide) (by decide) (by decide)
    (by decide)

/-- Symbolic execution of one cycle on 8XY5: the flag is stored in VF first and
the subtraction then reads VX and VY from the updated register file. -/
theorem emulateCycle_8XY5 (rnd : Nat) (s : Chip8) (X Y : Nat) (hX : X < 16) (hY : Y < 16)
    (hop : s.Fetches (0x8005 + 0x100 * X + 0x10 * Y)) :
    emulateCycle rnd s = .ok { s with
      opcode := 0x8005 + 0x100 * X + 0x10 * Y
      V := Function.update
        (Function.update s.V 0xF (if s.V X ≥ s.V Y then 1 else 0)) X
        (u8 (Function.update s.V 0xF (if s.V X ≥ s.V Y then 1 else 0) X + 256
          - Function.update s.V 0xF (if s.V X ≥ s.V Y then 1 else 0) Y))
      pc := u16 (s.pc + 2) } [] := by
  have hlt : 0x8005 + 0x100 * X + 0x10 * Y < 65536 := by omega
  have hfam : (0x8005 + 0x100 * X + 0x10 * Y) / 4096 % 16 = 8 := by omega
  have hsub : (0x8005 + 0x100 * X + 0x10 * Y) % 16 = 5 := by omega
  have hXd : (0x8005 + 0x100 * X + 0x10 * Y) / 256 % 16 = X := by omega
  have hYd : (0x8005 + 0x100 * X + 0x10 * Y) / 16 % 16 = Y := by omega
  rw [emulateCycle, fetchOpcode_of_fetches s _ hlt hop]
  simp only []
  rw [executeOpcode_family8 _ _ hfam]
  unfold exec8
  dsimp only
  rw [and_000F, and_0F00_shift, and_00F0_shift, hsub, hXd, hYd]
  simp

/-- One step on 8XY5 with X and Y both different from 0xF leaves
(VX - VY) mod 256 in VX and the no-borrow flag in VF. -/
theorem sub_borrow_of_ne_F (rnd : Nat) (s : Chip8) (X Y : Nat) (hwf : s.WF)
    (hX : X < 16) (hXF : X ≠ 0xF) (hY : Y < 16) (hYF : Y ≠ 0xF)
    (hop : s.Fetches (0x8005 + 0x100 * X + 0x10 * Y)) :
    ∃ t, emulateCycle rnd s = .ok t [] ∧
      (t.V X : Int) = ((s.V X : Int) - (s.V Y : Int)) % 256 ∧
      t.V 0xF = (if s.V X ≥ s.V Y then 1 else 0) := by
  have hx := hwf.V_lt X hX
  have hy := hwf.V_lt Y hY
  refine ⟨_, emulateCycle_8XY5 rnd s X Y hX hY hop, ?_, ?_⟩
  · simp only [Function.update_same, Function.update_noteq hXF, Function.update_noteq hYF, u8]
    omega
  · simp only [update_update_ne _ _ _ _ hXF]

/-- C3: on opcode 80F5 (8XY5 with X = 0 and Y = 0xF) with V0 = 5 and VF = 3 the
step leaves V0 = 4 and VF = 1: VF receives the flag before the subtraction
reads VY, so the flag 1 is subtracted in place of the old VF = 3, whereas
(V0 - VF) mod 256 is 2. -/
theorem C3_sub_reads_overwritten_flag :
    ∃ t, emulateCycle 0 (demo [0x80, 0xF5] [5, 0, 0, 0, 0, 0, 0, 0, 0, 0, 0, 0, 0, 0, 0, 3] 0)
        = .ok t [] ∧
      t.V 0 = 4 ∧ t.V 0xF = 1 ∧
      ((demo [0x80, 0xF5] [5, 0, 0, 0, 0, 0, 0, 0, 0, 0, 0, 0, 0, 0, 0, 3] 0).V 0 : Int)
        - (demo [0x80, 0xF5] [5, 0, 0, 0, 0, 0, 0, 0, 0, 0, 0, 0, 0, 0, 0, 3] 0).V 0xF = 2 :=
  ⟨_, emulateCycle_8XY5 0 _ 0 0xF (by decide) (by decide) (by decide), by decide, by decide,
    by decide⟩

/-! ## Binary-coded decimal -/

theorem executeOpcode_familyF (rnd : Nat) (s : Chip8) (h : s.opcode / 4096 % 16 = 15) :
    executeOpcode rnd s = execF s := by
  simp [executeOpcode, and_F000, h]

/-- Symbolic execution of one cycle on FX33 when the three cells are inside
memory. -/
theorem emulateCycle_FX33 (rnd : Nat) (s : Chip8) (X : Nat) (hX : X < 16)
    (hI : s.I + 2 < 4096) (hop : s.Fetches (0xF033 + 0x100 * X)) :
    emulateCycle rnd s = .ok { s with
      opcode := 0xF033 + 0x100 * X
      memory := Function.update (Function.update (Function.update s.memory s.I (s.V X / 100))
        (s.I + 1) ((s.V X / 10) % 10)) (s.I + 2) (s.V X % 10)
      pc := u16 (s.pc + 2) } [] := by
  have hlt : 0xF033 + 0x100 * X < 65536 := by omega
  have hfam : (0xF033 + 0x100 * X) / 4096 % 16 = 15 := by omega
  have hsub : (0xF033 + 0x100 * X) % 256 = 0x33 := by omega
  have hXd : (0xF033 + 0x100 * X) / 256 % 16 = X := by omega
  rw [emulateCycle, fetchOpcode_of_fetches s _ hlt hop]
  simp only []
  rw [executeOpcode_familyF _ _ hfam]
  unfold execF
  dsimp only
  rw [and_00FF, and_0F00_shift, hsub, hXd]
  simp [MEMORY_SIZE, hI]

/-- C6: one step on FX33 with I + 2 inside memory writes the hundreds, tens and
ones digit of VX to memory[I], memory[I+1], memory[I+2]; every other memory
cell, every register and I keep their values. -/
theorem C6_bcd_digits (rnd : Nat) (s : Chip8) (X : Nat) (hwf : s.WF) (hX : X < 16)
    (hI : s.I + 2 < 4096) (hop : s.Fetches (0xF033 + 0x100 * X)) :
    ∃ t, emulateCycle rnd s = .ok t [] ∧
      t.memory s.I ≤ 9 ∧ t.memory (s.I + 1) ≤ 9 ∧ t.memory (s.I + 2) ≤ 9 ∧
      100 * t.memory s.I + 10 * t.memory (s.I + 1) + t.memory (s.I + 2) = s.V X ∧
      (∀ a, a ≠ s.I → a ≠ s.I + 1 → a ≠ s.I + 2 → t.memory a = s.memory a) ∧
      t.V = s.V ∧ t.I = s.I := by
  have hx := hwf.V_lt X hX
  have e0 : s.I ≠ s.I + 1 := by omega
  have e1 : s.I ≠ s.I + 2 := by omega
  have e2 : s.I + 1 ≠ s.I + 2 := by omega
  refine ⟨_, emulateCycle_FX33 rnd s X hX hI hop, ?_, ?_, ?_, ?_, ?_, rfl, rfl⟩
  · simp only [Function.update_noteq e1, Function.update_noteq e0, Function.update_same]
    omega
  · simp only [Function.update_noteq e2, Function.update_same]
    omega
  · simp only [Function.update_same]
    omega
  · simp only [Function.update_noteq e1, Function.update_noteq e0, Function.update_noteq e2,
      Function.update_same]
    omega
  · intro a h0 h1 h2
    simp only [Function.update_noteq h2, Function.update_noteq h1, Function.update_noteq h0]

theorem C6_bcd_digits_witness :
    ∃ t, emulateCycle 0 (demo [0xF0, 0x33] [157] 0x300) = .ok t [] ∧
      t.memory 0x300 ≤ 9 ∧ t.memory 0x301 ≤ 9 ∧ t.memory 0x302 ≤ 9 ∧
      100 * t.memory 0x300 + 10 * t.memory 0x301 + t.memory 0x302 = 157 ∧
      (∀ a, a ≠ 0x300 → a ≠ 0x301 → a ≠ 0x302 →
        t.memory a = (demo [0xF0, 0x33] [157] 0x300).memory a) ∧
      t.V = (demo [0xF0, 0x33] [157] 0x300).V ∧ t.I = 0x300 :=
  C6_bcd_digits 0 (demo [0xF0, 0x33] [157] 0x300) 0
    (demo_WF _ _ _ (by decide) (by decide) (by decide)) (by decide) (by decide) (by decide)

/-! ## Key wait (FX0A) -/

theorem find_range_none (p : Nat → Bool) (n : Nat) (h : ∀ i, i < n → p i = false) :
    (List.range n).find? p = none := by
  rw [List.find?_eq_none]
  intro x hx
  rw [List.mem_range] at hx
  simp [h x hx]

theorem find_range_some (p : Nat → Bool) (n k : Nat) (hk : k < n) (hp : p k = true)
    (hmin : ∀ i, i < k → p i = false) : (List.range n).find? p = some k := by
  induction n with
  | zero => omega
  | succ n ih =>
    rw [List.range_succ, List.find?_append]
    by_cases h : k < n
    · rw [ih h]; rfl
    · have hkn : k = n := by omega
      subst hkn
      rw [find_range_none p k hmin]
      simp [hp]

/-- Symbolic execution of one cycle on FX0A while no key is down: only the
`opcode` field is rewritten. -/
theorem emulateCycle_FX0A_idle (rnd : Nat) (s : Chip8) (X : Nat) (hX : X < 16)
    (hop : s.Fetches (0xF00A + 0x100 * X)) (hkeys : ∀ i, i < 16 → s.keypad i = 0) :
    emulateCycle rnd s = .ok { s with opcode := 0xF00A + 0x100 * X } [] := by
  have hlt : 0xF00A + 0x100 * X < 65536 := by omega
  have hfam : (0xF00A + 0x100 * X) / 4096 % 16 = 15 := by omega
  have hsub : (0xF00A + 0x100 * X) % 256 = 0x0A := by omega
  have hXd : (0xF00A + 0x100 * X) / 256 % 16 = X := by omega
  have hnone : (List.range 16).find? (fun i => decide (s.keypad i ≠ 0)) = none :=
    find_range_none _ _ (fun i hi => by simp [hkeys i hi])
  rw [emulateCycle, fetchOpcode_of_fetches s _ hlt hop]
  simp only []
  rw [executeOpcode_familyF _ _ hfam]
  unfold execF
  dsimp only
  rw [and_00FF, and_0F00_shift, hsub, hXd, hnone]
  simp

/-- Symbolic execution of one cycle on FX0A when `k` is the lowest key that
is down. -/
theorem emulateCycle_FX0A_key (rnd : Nat) (s : Chip8) (X k : Nat) (hX : X < 16)
    (hop : s.Fetches (0xF00A + 0x100 * X)) (hk : k < 16) (hdown : s.keypad k ≠ 0)
    (hmin : ∀ i, i < k → s.keypad i = 0) :
    emulateCycle rnd s = .ok { s with
      opcode := 0xF00A + 0x100 * X
      V := Function.update s.V X k
      pc := u16 (s.pc + 2) } [] := by
  have hlt : 0xF00A + 0x100 * X < 65536 := by omega
  have hfam : (0xF00A + 0x100 * X) / 4096 % 16 = 15 := by omega
  have hsub : (0xF00A + 0x100 * X) % 256 = 0x0A := by omega
  have hXd : (0xF00A + 0x100 * X) / 256 % 16 = X := by omega
  have hsome : (List.range 16).find? (fun i => decide (s.keypad i ≠ 0)) = some k :=
    find_range_some _ _ k hk (by simp [hdown]) (fun i hi => by simp [hmin i hi])
  rw [emulateCycle, fetchOpcode_of_fetches s _ hlt hop]
  simp only []
  rw [executeOpcode_familyF _ _ hfam]
  unfold execF
  dsimp only
  rw [and_00FF, and_0F00_shift, hsub, hXd, hsome]
  simp

theorem emulateCycles_FX0A_fixed (X : Nat) (hX : X < 16) (n : Nat) :
    ∀ (rnd : Nat → Nat) (s : Chip8), s.Fetches (0xF00A + 0x100 * X) →
      (∀ i, i < 16 → s.keypad i = 0) →
      emulateCycles rnd n { s with opcode := 0xF00A + 0x100 * X } =
        .ok { s with opcode := 0xF00A + 0x100 * X } [] := by
  induction n with
  | zero => intro rnd s _ _; rfl
  | succ n ih =>
    intro rnd s hop hkeys
    have h1 := emulateCycle_FX0A_idle (rnd 0) { s with opcode := 0xF00A + 0x100 * X } X hX
      hop hkeys
    rw [emulateCycles, h1]
    simp only []
    rw [ih _ s hop hkeys]
    rfl

/-- C7: when the bytes at pc encode FX0A and no key is down, any number `n` of
consecutive `emulateCycle` calls returns with pc, the registers, I, memory,
stack, sp, both timers, the framebuffer and the keypad unchanged, and prints
nothing. -/
theorem C7_wait_key_never_advances (rnd : Nat → Nat) (s : Chip8) (X : Nat) (hX : X < 16)
    (hop : s.Fetches (0xF00A + 0x100 * X)) (hkeys : ∀ i, i < 16 → s.keypad i = 0)
    (n : Nat) :
    ∃ t, emulateCycles rnd n s = .ok t [] ∧
      t.pc = s.pc ∧ t.V = s.V ∧ t.I = s.I ∧ t.memory = s.memory ∧ t.stack = s.stack ∧
      t.sp = s.sp ∧ t.delay_timer = s.delay_timer ∧ t.sound_timer = s.sound_timer ∧
      t.display = s.display ∧ t.keypad = s.keypad := by
  cases n with
  | zero => exact ⟨s, rfl, rfl, rfl, rfl, rfl, rfl, rfl, rfl, rfl, rfl, rfl⟩
  | succ n =>
    refine ⟨{ s with opcode := 0xF00A + 0x100 * X }, ?_, rfl, rfl, rfl, rfl, rfl, rfl, rfl, rfl,
      rfl, rfl⟩
    rw [emulateCycles, emulateCycle_FX0A_idle (rnd 0) s X hX hop hkeys]
    simp only []
    rw [emulateCycles_FX0A_fixed X hX n _ s hop hkeys]
    rfl

theorem C7_wait_key_never_advances_witness :
    ∃ t, emulateCycles (fun _ => 0) 1000 (demo [0xF3, 0x0A] [] 0) = .ok t [] ∧
      t.pc = 0x200 ∧ t.V = (demo [0xF3, 0x0A] [] 0).V ∧ t.I = 0 ∧
      t.memory = (demo [0xF3, 0x0A] [] 0).memory ∧ t.stack = (demo [0xF3, 0x0A] [] 0).stack ∧
      t.sp = 0 ∧ t.delay_timer = 0 ∧ t.sound_timer = 0 ∧
      t.display = (demo [0xF3, 0x0A] [] 0).display ∧
      t.keypad = (demo [0xF3, 0x0A] [] 0).keypad :=
  C7_wait_key_never_advances (fun _ => 0) (demo [0xF3, 0x0A] [] 0) 3 (by decide) (by decide)
    (fun _ _ => rfl) 1000

/-- C8: when at least one key is down, one step on FX0A returns with VX equal
to the lowest index in 0..15 whose key is down, pc advanced by 2 and every
other register unchanged. -/
theorem C8_wait_key_takes_lowest (rnd : Nat) (s : Chip8) (X : Nat) (hX : X < 16)
    (hop : s.Fetches (0xF00A + 0x100 * X)) (hdown : ∃ i, i < 16 ∧ s.keypad i ≠ 0) :
    ∃ t, emulateCycle rnd s = .ok t [] ∧
      t.V X < 16 ∧ s.keypad (t.V X) ≠ 0 ∧ (∀ i, i < t.V X → s.keypad i = 0) ∧
      t.pc = s.pc + 2 ∧ (∀ r, r ≠ X → t.V r = s.V r) := by
  have hpc : s.pc + 1 < 4096 := hop.1
  have hk := Nat.find_spec hdown
  have hmin : ∀ i, i < Nat.find hdown → s.keypad i = 0 := by
    intro i hi
    by_contra hne
    exact Nat.find_min hdown hi ⟨by omega, hne⟩
  refine ⟨_, emulateCycle_FX0A_key rnd s X (Nat.find hdown) hX hop hk.1 hk.2 hmin,
    ?_, ?_, ?_, ?_, ?_⟩
  · simp only [Function.update_same]; exact hk.1
  · simp only [Function.update_same]; exact hk.2
  · simp only [Function.update_same]; exact hmin
  · simp only [u16]; omega
  · intro r hr
    simp only [Function.update_noteq hr]

theorem C8_wait_key_takes_lowest_witness :
    ∃ t, emulateCycle 0 (demoKeys [0xF3, 0x0A] [] 0 [9, 5]) = .ok t [] ∧
      t.V 3 < 16 ∧ (demoKeys [0xF3, 0x0A] [] 0 [9, 5]).keypad (t.V 3) ≠ 0 ∧
      (∀ i, i < t.V 3 → (demoKeys [0xF3, 0x0A] [] 0 [9, 5]).keypad i = 0) ∧
      t.pc = 0x200 + 2 ∧ (∀ r, r ≠ 3 → t.V r = (demoKeys [0xF3, 0x0A] [] 0 [9, 5]).V r) :=
  C8_wait_key_takes_lowest 0 (demoKeys [0xF3, 0x0A] [] 0 [9, 5]) 3 (by decide) (by decide)
    ⟨5, by decide, by decide⟩

/-! ## Timers -/

/-- What one `updateTimers` call prints, and the sound timer it leaves. -/
theorem updateTimers_sound (s : Chip8) :
    (updateTimers s).2 = (if s.sound_timer = 1 then [Console.beep] else []) ∧
    (updateTimers s).1.sound_timer = s.sound_timer - 1 := by
  unfold updateTimers
  by_cases hd : s.delay_timer > 0 <;> by_cases hs : s.sound_timer > 0 <;>
    by_cases h1 : s.sound_timer = 1 <;> simp [hd, hs, h1] <;> omega

theorem updateTimersN_silent (m : Nat) :
    ∀ s : Chip8, s.sound_timer = 0 →
      (updateTimersN m s).2 = [] ∧ (updateTimersN m s).1.sound_timer = 0 := by
  induction m with
  | zero => intro s h; exact ⟨rfl, h⟩
  | succ m ih =>
    intro s h
    have h1 := updateTimers_sound s
    have h0 : (updateTimers s).1.sound_timer = 0 := by rw [h1.2, h]
    have h2 := ih _ h0
    simp only [updateTimersN]
    rw [h1.1, h2.1, h2.2, h]
    simp

theorem updateTimersN_one_beep (n : Nat) :
    ∀ s : Chip8, s.sound_timer = n + 1 →
      (updateTimersN (n + 1) s).2 = [Console.beep] ∧
      (updateTimersN (n + 1) s).1.sound_timer = 0 := by
  induction n with
  | zero =>
    intro s h
    have h1 := updateTimers_sound s
    simp only [updateTimersN]
    rw [h1.1, h1.2, h]
    simp
  | succ n ih =>
    intro s h
    have h1 := updateTimers_sound s
    have h0 : (updateTimers s).1.sound_timer = n + 1 := by rw [h1.2, h]; rfl
    have h2 := ih _ h0
    rw [updateTimersN]
    simp only []
    rw [h1.1, h2.1, h2.2, h]
    simp

/-- C9: `updateTimers` prints the beep exactly when sound_timer is 1 before the
call, and then leaves sound_timer = 0; with sound_timer = 0 it prints nothing
and sound_timer stays 0; from any sound_timer value v of at least 1, v calls
in a row print exactly one beep and any number of further calls print none. -/
theorem C9_beep_exactly_at_one (s : Chip8) :
    (Console.beep ∈ (updateTimers s).2 ↔ s.sound_timer = 1) ∧
    (updateTimers s).2 = (if s.sound_timer = 1 then [Console.beep] else []) ∧
    (s.sound_timer = 1 → (updateTimers s).1.sound_timer = 0) ∧
    (s.sound_timer = 0 →
      (updateTimers s).2 = [] ∧ (updateTimers s).1.sound_timer = s.sound_timer) ∧
    (1 ≤ s.sound_timer →
      (updateTimersN s.sound_timer s).2 = [Console.beep] ∧
      ∀ m, (updateTimersN m (updateTimersN s.sound_timer s).1).2 = []) := by
  have h1 := updateTimers_sound s
  refine ⟨?_, h1.1, ?_, ?_, ?_⟩
  · rw [h1.1]
    by_cases h : s.sound_timer = 1 <;> simp [h]
  · intro h
    rw [h1.2, h]
  · intro h
    rw [h1.1, h1.2, h]
    simp
  · intro h
    obtain ⟨n, hn⟩ : ∃ n, s.sound_timer = n + 1 := ⟨s.sound_timer - 1, by omega⟩
    have h2 := updateTimersN_one_beep n s hn
    rw [hn]
    exact ⟨h2.1, fun m => (updateTimersN_silent m _ h2.2).1⟩

theorem C9_beep_exactly_at_one_witness :
    (updateTimersN 3 { demo [] [] 0 with sound_timer := 3 }).2 = [Console.beep] ∧
    ∀ m, (updateTimersN m (updateTimersN 3 { demo [] [] 0 with sound_timer := 3 }).1).2 = [] :=
  (C9_beep_exactly_at_one { demo [] [] 0 with sound_timer := 3 }).2.2.2.2 (by decide)

/-- C10: `updateTimers` lowers each of delay_timer and sound_timer by one when
it is positive and leaves it at 0 when it is 0 (no wrap to 255), each timer by
its own old value only, and changes no other field. -/
theorem C10_timers_clamp_at_zero (s : Chip8) :
    (updateTimers s).1.delay_timer = (if s.delay_timer > 0 then s.delay_timer - 1 else 0) ∧
    (updateTimers s).1.sound_timer = (if s.sound_timer > 0 then s.sound_timer - 1 else 0) ∧
    (updateTimers s).1.memory = s.memory ∧ (updateTimers s).1.V = s.V ∧
    (updateTimers s).1.I = s.I ∧ (updateTimers s).1.pc = s.pc ∧
    (updateTimers s).1.stack = s.stack ∧ (updateTimers s).1.sp = s.sp ∧
    (updateTimers s).1.display = s.display ∧ (updateTimers s).1.keypad = s.keypad ∧
    (updateTimers s).1.opcode = s.opcode := by
  unfold updateTimers
  by_cases hd : s.delay_timer > 0 <;> by_cases hs : s.sound_timer > 0 <;> simp [hd, hs] <;> omega

/-! ## Sprite drawing (DXYN) -/

theorem pixelIndex_inj (x y r c r' c' : Nat) (hr : r < 32) (hr' : r' < 32) (hc : c < 64)
    (hc' : c' < 64) (h : pixelIndex x y r c = pixelIndex x y r' c') : r = r' ∧ c = c' := by
  simp only [pixelIndex, DISPLAY_HEIGHT, DISPLAY_WIDTH] at h
  omega

theorem DrawFrame.refl (s : Chip8) : DrawFrame s s := ⟨rfl, fun _ _ => rfl⟩

theorem DrawFrame.trans {s t u : Chip8} (h1 : DrawFrame s t) (h2 : DrawFrame t u) :
    DrawFrame s u := by
  refine ⟨?_, fun k hk => (h2.2 k hk).trans (h1.2 k hk)⟩
  have e1 := h1.1
  have e2 := h2.1
  rw [e2, e1]

theorem drawCol_frame (X Y b r : Nat) (s : Chip8) (c : Nat) :
    DrawFrame s (drawCol X Y b r s c) := by
  unfold drawCol
  dsimp only
  split
  · split
    · exact ⟨rfl, fun k hk => Function.update_noteq hk _ _⟩
    · exact ⟨rfl, fun _ _ => rfl⟩
  · exact DrawFrame.refl s

theorem drawCol_display (X Y b r : Nat) (s : Chip8) (c i : Nat) :
    (drawCol X Y b r s c).display i =
      if b &&& (0x80 >>> c) ≠ 0 ∧ pixelIndex X Y r c = i then s.display i ^^^ 1
      else s.display i := by
  unfold drawCol
  dsimp only
  by_cases hb : b &&& (0x80 >>> c) ≠ 0
  · rw [if_pos hb]
    by_cases hi : pixelIndex X Y r c = i
    · rw [if_pos (And.intro hb hi)]
      subst hi
      split <;> simp [pixelIndex]
    · rw [if_neg (fun h : _ ∧ _ => hi h.2)]
      have hi' : i ≠ (Y + r) % DISPLAY_HEIGHT * DISPLAY_WIDTH + (X + c) % DISPLAY_WIDTH :=
        fun h => hi h.symm
      split <;> simp [Function.update_noteq hi']
  · rw [if_neg hb, if_neg (fun h : _ ∧ _ => hb h.1)]

theorem drawCol_VF (X Y b r : Nat) (s : Chip8) (c : Nat) :
    (drawCol X Y b r s c).V 0xF =
      if b &&& (0x80 >>> c) ≠ 0 ∧ s.display (pixelIndex X Y r c) = 1 then 1 else s.V 0xF := by
  unfold drawCol
  dsimp only
  by_cases hb : b &&& (0x80 >>> c) ≠ 0
  · rw [if_pos hb]
    by_cases hd : s.display (pixelIndex X Y r c) = 1
    · rw [if_pos (And.intro hb hd)]
      simp only [pixelIndex] at hd
      simp [hd]
    · rw [if_neg (fun h : _ ∧ _ => hd h.2)]
      simp only [pixelIndex] at hd
      simp [hd]
  · rw [if_neg hb, if_neg (fun h : _ ∧ _ => hb h.1)]

theorem DrawFrame.I_eq {s t : Chip8} (h : DrawFrame s t) : t.I = s.I := by
  have e := h.1
  rw [e]

theorem DrawFrame.memory_eq {s t : Chip8} (h : DrawFrame s t) : t.memory = s.memory := by
  have e := h.1
  rw [e]

theorem DrawFrame.pc_eq {s t : Chip8} (h : DrawFrame s t) : t.pc = s.pc := by
  have e := h.1
  rw [e]

theorem pixelIndex_inj_col (x y r c c' : Nat) (hc : c < 64) (hc' : c' < 64)
    (h : pixelIndex x y r c = pixelIndex x y r c') : c = c' := by
  simp only [pixelIndex, DISPLAY_HEIGHT, DISPLAY_WIDTH] at h
  omega

/-- The inner loop of DXYN over the columns below `m` of one sprite row. -/
theorem drawCols (X Y b r : Nat) (s : Chip8) (m : Nat) (hm : m ≤ 64) :
    DrawFrame s ((List.range m).foldl (drawCol X Y b r) s) ∧
    (∀ i, (∃ c, c < m ∧ b &&& (0x80 >>> c) ≠ 0 ∧ pixelIndex X Y r c = i) →
      ((List.range m).foldl (drawCol X Y b r) s).display i = s.display i ^^^ 1) ∧
    (∀ i, (¬ ∃ c, c < m ∧ b &&& (0x80 >>> c) ≠ 0 ∧ pixelIndex X Y r c = i) →
      ((List.range m).foldl (drawCol X Y b r) s).display i = s.display i) ∧
    ((∃ c, c < m ∧ b &&& (0x80 >>> c) ≠ 0 ∧ s.display (pixelIndex X Y r c) = 1) →
      ((List.range m).foldl (drawCol X Y b r) s).V 0xF = 1) ∧
    ((¬ ∃ c, c < m ∧ b &&& (0x80 >>> c) ≠ 0 ∧ s.display (pixelIndex X Y r c) = 1) →
      ((List.range m).foldl (drawCol X Y b r) s).V 0xF = s.V 0xF) := by
  induction m with
  | zero =>
    refine ⟨DrawFrame.refl s, ?_, fun _ _ => rfl, ?_, fun _ => rfl⟩
    · rintro i ⟨c, hc, _⟩; omega
    · rintro ⟨c, hc, _⟩; omega
  | succ m ih =>
    obtain ⟨hF, hA, hB, hC, hD⟩ := ih (by omega)
    rw [List.range_succ, List.foldl_append]
    simp only [List.foldl_cons, List.foldl_nil]
    generalize (List.range m).foldl (drawCol X Y b r) s = t at hF hA hB hC hD
    have hfresh : ¬ ∃ c, c < m ∧ b &&& (0x80 >>> c) ≠ 0 ∧
        pixelIndex X Y r c = pixelIndex X Y r m := by
      rintro ⟨c, hc, _, he⟩
      have := pixelIndex_inj_col X Y r c m (by omega) (by omega) he
      omega
    have hsame : t.display (pixelIndex X Y r m) = s.display (pixelIndex X Y r m) :=
      hB _ hfresh
    refine ⟨hF.trans (drawCol_frame X Y b r t m), ?_, ?_, ?_, ?_⟩
    · rintro i ⟨c, hc, hb, hi⟩
      rw [drawCol_display]
      by_cases hcm : c < m
      · have hne : ¬ (b &&& (0x80 >>> m) ≠ 0 ∧ pixelIndex X Y r m = i) := by
          rintro ⟨_, he⟩
          exact hfresh ⟨c, hcm, hb, by rw [hi, he]⟩
        rw [if_neg hne]
        exact hA i ⟨c, hcm, hb, hi⟩
      · have hcm' : c = m := by omega
        subst hcm'
        rw [if_pos (And.intro hb hi), ← hi, hsame]
    · intro i hi
      rw [drawCol_display]
      have hne : ¬ (b &&& (0x80 >>> m) ≠ 0 ∧ pixelIndex X Y r m = i) := by
        rintro ⟨hb, he⟩
        exact hi ⟨m, by omega, hb, he⟩
      rw [if_neg hne]
      exact hB i (fun ⟨c, hc, hb, he⟩ => hi ⟨c, by omega, hb, he⟩)
    · rintro ⟨c, hc, hb, hd⟩
      rw [drawCol_VF]
      by_cases hcm : c < m
      · rw [hC ⟨c, hcm, hb, hd⟩]
        split <;> rfl
      · have hcm' : c = m := by omega
        subst hcm'
        rw [hsame, if_pos (And.intro hb hd)]
    · intro hno
      rw [drawCol_VF, hsame]
      have hne : ¬ (b &&& (0x80 >>> m) ≠ 0 ∧ s.display (pixelIndex X Y r m) = 1) := by
        rintro ⟨hb, hd⟩
        exact hno ⟨m, by omega, hb, hd⟩
      rw [if_neg hne]
      exact hD (fun ⟨c, hc, hb, hd⟩ => hno ⟨c, by omega, hb, hd⟩)

/-- The outer loop of DXYN over the sprite rows below `n`: it returns when the
rows lie inside memory, toggles exactly the covered cells, and raises VF
exactly when a set sprite pixel meets a cell that held 1 before the loop. -/
theorem drawRows (X Y : Nat) (s : Chip8) (n : Nat) (hn : n ≤ 32)
    (hI : s.I + n ≤ MEMORY_SIZE) :
    ∃ t, (List.range n).foldlM (drawRow X Y) s = some t ∧ DrawFrame s t ∧
      (∀ i, Covers s X Y n i → t.display i = s.display i ^^^ 1) ∧
      (∀ i, ¬ Covers s X Y n i → t.display i = s.display i) ∧
      (Collides s X Y n → t.V 0xF = 1) ∧
      (¬ Collides s X Y n → t.V 0xF = s.V 0xF) := by
  induction n with
  | zero =>
    refine ⟨s, rfl, DrawFrame.refl s, ?_, fun _ _ => rfl, ?_, fun _ => rfl⟩
    · rintro i ⟨r, hr, _⟩; omega
    · rintro ⟨r, hr, _⟩; omega
  | succ n ih =>
    obtain ⟨t, ht, hF, hA, hB, hC, hD⟩ := ih (by omega) (by omega)
    have hlt : t.I + n < MEMORY_SIZE := by rw [hF.I_eq]; omega
    have hrow : drawRow X Y t n =
        some ((List.range 8).foldl (drawCol X Y (s.memory (s.I + n)) n) t) := by
      rw [drawRow, if_pos hlt, hF.memory_eq, hF.I_eq]
    obtain ⟨cF, cA, cB, cC, cD⟩ := drawCols X Y (s.memory (s.I + n)) n t 8 (by omega)
    generalize (List.range 8).foldl (drawCol X Y (s.memory (s.I + n)) n) t = u
      at hrow cF cA cB cC cD
    have hfresh : ∀ c, c < 8 → ¬ Covers s X Y n (pixelIndex X Y n c) := by
      rintro c hc ⟨r, hr, c', hc', _, he⟩
      have := (pixelIndex_inj X Y r c' n c (by omega) (by omega) (by omega) (by omega) he).1
      omega
    have hsame : ∀ c, c < 8 → t.display (pixelIndex X Y n c) = s.display (pixelIndex X Y n c) :=
      fun c hc => hB _ (hfresh c hc)
    refine ⟨u, ?_, hF.trans cF, ?_, ?_, ?_, ?_⟩
    · rw [List.range_succ, List.foldlM_append, ht]
      simp only [Option.bind_eq_bind, Option.some_bind, List.foldlM_cons, List.foldlM_nil, hrow,
        Option.pure_def]
    · rintro i ⟨r, hr, c, hc, hb, hi⟩
      by_cases hrn : r < n
      · have hcov : Covers s X Y n i := ⟨r, hrn, c, hc, hb, hi⟩
        have hno : ¬ ∃ c', c' < 8 ∧ s.memory (s.I + n) &&& (0x80 >>> c') ≠ 0 ∧
            pixelIndex X Y n c' = i := by
          rintro ⟨c', hc', _, he⟩
          exact hfresh c' hc' (he ▸ hcov)
        rw [cB i hno]
        exact hA i hcov
      · have hrn' : r = n := by omega
        subst hrn'
        rw [cA i ⟨c, hc, hb, hi⟩, ← hi, hsame c hc]
    · intro i hi
      have hno : ¬ ∃ c', c' < 8 ∧ s.memory (s.I + n) &&& (0x80 >>> c') ≠ 0 ∧
          pixelIndex X Y n c' = i :=
        fun ⟨c', hc', hb, he⟩ => hi ⟨n, by omega, c', hc', hb, he⟩
      rw [cB i hno]
      exact hB i (fun ⟨r, hr, h⟩ => hi ⟨r, by omega, h⟩)
    · rintro ⟨r, hr, c, hc, hb, hd⟩
      by_cases hrn : r < n
      · have h1 : t.V 0xF = 1 := hC ⟨r, hrn, c, hc, hb, hd⟩
        by_cases hcol : ∃ c', c' < 8 ∧ s.memory (s.I + n) &&& (0x80 >>> c') ≠ 0 ∧
            t.display (pixelIndex X Y n c') = 1
        · exact cC hcol
        · rw [cD hcol, h1]
      · have hrn' : r = n := by omega
        subst hrn'
        exact cC ⟨c, hc, hb, by rw [hsame c hc, hd]⟩
    · intro hno
      have hcol : ¬ ∃ c', c' < 8 ∧ s.memory (s.I + n) &&& (0x80 >>> c') ≠ 0 ∧
          t.display (pixelIndex X Y n c') = 1 := by
        rintro ⟨c', hc', hb, hd⟩
        exact hno ⟨n, by omega, c', hc', hb, by rw [← hsame c' hc', hd]⟩
      rw [cD hcol]
      exact hD (fun ⟨r, hr, h⟩ => hno ⟨r, by omega, h⟩)

theorem executeOpcode_familyD (rnd : Nat) (s : Chip8) (h : s.opcode / 4096 % 16 = 13) :
    executeOpcode rnd s = execD s := by
  simp [executeOpcode, and_F000, h]

/-- Symbolic execution of one cycle on DXYN when the sprite rows lie inside
memory. -/
theorem emulateCycle_DXYN (rnd : Nat) (s : Chip8) (X Y N : Nat) (hX : X < 16) (hY : Y < 16)
    (hN : N < 16) (hI : s.I + N ≤ 4096)
    (hop : s.Fetches (0xD000 + 0x100 * X + 0x10 * Y + N)) :
    ∃ t, emulateCycle rnd s = .ok t [] ∧
      (∀ i, Covers s (s.V X) (s.V Y) N i → t.display i = s.display i ^^^ 1) ∧
      (∀ i, ¬ Covers s (s.V X) (s.V Y) N i → t.display i = s.display i) ∧
      (Collides s (s.V X) (s.V Y) N → t.V 0xF = 1) ∧
      (¬ Collides s (s.V X) (s.V Y) N → t.V 0xF = 0) ∧
      (∀ k, k ≠ 0xF → t.V k = s.V k) ∧
      t.memory = s.memory ∧ t.I = s.I ∧ t.pc = s.pc + 2 := by
  have hlt : 0xD000 + 0x100 * X + 0x10 * Y + N < 65536 := by omega
  have hfam : (0xD000 + 0x100 * X + 0x10 * Y + N) / 4096 % 16 = 13 := by omega
  have hNd : (0xD000 + 0x100 * X + 0x10 * Y + N) % 16 = N := by omega
  have hXd : (0xD000 + 0x100 * X + 0x10 * Y + N) / 256 % 16 = X := by omega
  have hYd : (0xD000 + 0x100 * X + 0x10 * Y + N) / 16 % 16 = Y := by omega
  have hpc : s.pc + 1 < 4096 := hop.1
  obtain ⟨t, ht, hF, hA, hB, hC, hD⟩ := drawRows (s.V X) (s.V Y)
    { s with opcode := 0xD000 + 0x100 * X + 0x10 * Y + N, V := Function.update s.V 0xF 0 } N
    (by omega) (by simpa [MEMORY_SIZE] using hI)
  refine ⟨{ t with pc := u16 (t.pc + 2) }, ?_, hA, hB, hC, ?_, ?_, hF.memory_eq, hF.I_eq, ?_⟩
  · rw [emulateCycle, fetchOpcode_of_fetches s _ hlt hop]
    simp only []
    rw [executeOpcode_familyD _ _ hfam]
    unfold execD
    dsimp only
    rw [and_000F, and_0F00_shift, and_00F0_shift, hNd, hXd, hYd, ht]
  · intro h
    have := hD h
    simpa using this
  · intro k hk
    have := hF.2 k hk
    simpa [Function.update_noteq hk] using this
  · have := hF.pc_eq
    simp only [u16] at *
    omega

theorem Covers.congr {s s' : Chip8} (hm : s'.memory = s.memory) (hI : s'.I = s.I)
    (x y n i : Nat) : Covers s' x y n i ↔ Covers s x y n i := by
  unfold Covers
  rw [hm, hI]

theorem xor_one_xor_one (d : Nat) : (d ^^^ 1) ^^^ 1 = d := by
  rw [Nat.xor_assoc, Nat.xor_self, Nat.xor_zero]

/-- C4: with X and Y different from 0xF and the sprite rows inside memory, one
step on DXYN returns and leaves VX, VY, I and memory unchanged; executing the
same DXYN again from any state that holds the framebuffer of the first draw
and the same VX, VY, I and memory returns with every framebuffer cell equal
to its value before the first draw, whatever the cells held. -/
theorem C4_draw_twice_restores_framebuffer (rnd : Nat) (s : Chip8) (X Y N : Nat)
    (hX : X < 16) (hXF : X ≠ 0xF) (hY : Y < 16) (hYF : Y ≠ 0xF) (hN : N < 16)
    (hI : s.I + N ≤ 4096) (hop : s.Fetches (0xD000 + 0x100 * X + 0x10 * Y + N)) :
    ∃ t, emulateCycle rnd s = .ok t [] ∧
      t.V X = s.V X ∧ t.V Y = s.V Y ∧ t.I = s.I ∧ t.memory = s.memory ∧ t.pc = s.pc + 2 ∧
      ∀ (rnd' : Nat) (s' : Chip8), s'.Fetches (0xD000 + 0x100 * X + 0x10 * Y + N) →
        s'.V X = t.V X → s'.V Y = t.V Y → s'.I = t.I → s'.memory = t.memory →
        s'.display = t.display →
        ∃ u, emulateCycle rnd' s' = .ok u [] ∧
          ∀ i, i < DISPLAY_WIDTH * DISPLAY_HEIGHT → u.display i = s.display i := by
  obtain ⟨t, ht, hA, hB, _, _, hV, hm, hI', hpc⟩ := emulateCycle_DXYN rnd s X Y N hX hY hN hI hop
  refine ⟨t, ht, hV X hXF, hV Y hYF, hI', hm, hpc, ?_⟩
  intro rnd' s' hop' hVX hVY hIs hms hd
  rw [hV X hXF] at hVX
  rw [hV Y hYF] at hVY
  rw [hI'] at hIs
  rw [hm] at hms
  obtain ⟨u, hu, hA', hB', _⟩ :=
    emulateCycle_DXYN rnd' s' X Y N hX hY hN (by rw [hIs]; exact hI) hop'
  refine ⟨u, hu, fun i _ => ?_⟩
  rw [hVX, hVY] at hA' hB'
  by_cases hc : Covers s (s.V X) (s.V Y) N i
  · rw [hA' i ((Covers.congr hms hIs _ _ _ _).2 hc), hd, hA i hc, xor_one_xor_one]
  · rw [hB' i (fun h => hc ((Covers.congr hms hIs _ _ _ _).1 h)), hd, hB i hc]

theorem C4_draw_twice_restores_framebuffer_witness :
    ∃ t u, emulateCycle 0
        (demoLit [0xD0, 0x12, 0xD0, 0x12, 0xFF, 0x81] [60, 31] 0x204 [63, 64, 1984]) = .ok t [] ∧
      emulateCycle 0 t = .ok u [] ∧
      ∀ i, i < DISPLAY_WIDTH * DISPLAY_HEIGHT → u.display i =
        (demoLit [0xD0, 0x12, 0xD0, 0x12, 0xFF, 0x81] [60, 31] 0x204 [63, 64, 1984]).display i := by
  obtain ⟨t, ht, _, _, _, hm, hpc, h2⟩ := C4_draw_twice_restores_framebuffer 0
    (demoLit [0xD0, 0x12, 0xD0, 0x12, 0xFF, 0x81] [60, 31] 0x204 [63, 64, 1984]) 0 1 2
    (by decide) (by decide) (by decide) (by decide) (by decide) (by decide) (by decide)
  have hf : t.Fetches (0xD000 + 0x100 * 0 + 0x10 * 1 + 2) := by
    unfold Fetches
    rw [hpc, hm]
    decide
  obtain ⟨u, hu, hd⟩ := h2 0 t hf rfl rfl rfl rfl rfl
  exact ⟨t, u, ht, hu, hd⟩

theorem executeOpcode_family0 (rnd : Nat) (s : Chip8) (h : s.opcode / 4096 % 16 = 0) :
    executeOpcode rnd s = exec0 s := by
  simp [executeOpcode, and_F000, h]

/-- Symbolic execution of one cycle on an opcode 0NEE: the second nibble is
not decoded, so every 0NEE runs the return case. -/
theorem emulateCycle_0NEE (rnd : Nat) (s : Chip8) (N : Nat) (hN : N < 16)
    (hop : s.Fetches (0x00EE + 0x100 * N)) :
    emulateCycle rnd s =
      if s.sp = 0 then .exited { s with opcode := 0x00EE + 0x100 * N } [.stackUnderflow]
      else if s.sp - 1 < STACK_SIZE then
        .ok { s with opcode := 0x00EE + 0x100 * N, sp := s.sp - 1,
                     pc := u16 (s.stack (s.sp - 1) + 2) } []
      else .undefined := by
  have hlt : 0x00EE + 0x100 * N < 65536 := by omega
  have hfam : (0x00EE + 0x100 * N) / 4096 % 16 = 0 := by omega
  have hsub : (0x00EE + 0x100 * N) % 256 = 0xEE := by omega
  rw [emulateCycle, fetchOpcode_of_fetches s _ hlt hop]
  simp only []
  rw [executeOpcode_family0 _ _ hfam]
  unfold exec0
  dsimp only
  rw [and_00FF, hsub]
  simp

/-- Symbolic execution of one cycle on 2NNN. -/
theorem emulateCycle_2NNN (rnd : Nat) (s : Chip8) (NNN : Nat) (hN : NNN < 4096)
    (hop : s.Fetches (0x2000 + NNN)) :
    emulateCycle rnd s =
      if s.sp ≥ STACK_SIZE then .exited { s with opcode := 0x2000 + NNN } [.stackOverflow]
      else .ok { s with opcode := 0x2000 + NNN, stack := Function.update s.stack s.sp s.pc,
                        sp := s.sp + 1, pc := NNN } [] := by
  have hlt : 0x2000 + NNN < 65536 := by omega
  have hfam : (0x2000 + NNN) / 4096 % 16 = 2 := by omega
  have hnnn : (0x2000 + NNN) % 4096 = NNN := by omega
  rw [emulateCycle, fetchOpcode_of_fetches s _ hlt hop]
  simp only []
  unfold executeOpcode
  dsimp only
  rw [and_F000, and_0FFF, hfam, hnnn]
  simp

/-- C11: a step on 00EE halts exactly when sp = 0, a step on 2NNN halts exactly
when sp is at least 16; the halted engine has the pc, sp and stack (and every
other member but the opcode latch) of the state before the step. -/
theorem C11_stack_faults_exactly_at_bounds (rnd : Nat) (s : Chip8) :
    (s.Fetches 0x00EE →
      ((emulateCycle rnd s).halts ↔ s.sp = 0) ∧
      (s.sp = 0 → ∃ t, emulateCycle rnd s = .exited t [.stackUnderflow] ∧
        t.pc = s.pc ∧ t.sp = s.sp ∧ t.stack = s.stack ∧ t = { s with opcode := 0x00EE })) ∧
    (∀ NNN, NNN < 4096 → s.Fetches (0x2000 + NNN) →
      ((emulateCycle rnd s).halts ↔ s.sp ≥ 16) ∧
      (s.sp ≥ 16 → ∃ t, emulateCycle rnd s = .exited t [.stackOverflow] ∧
        t.pc = s.pc ∧ t.sp = s.sp ∧ t.stack = s.stack ∧
        t = { s with opcode := 0x2000 + NNN })) := by
  constructor
  · intro hop
    have h := emulateCycle_0NEE rnd s 0 (by decide) hop
    simp only [Nat.mul_zero, Nat.add_zero] at h
    rw [h]
    constructor
    · by_cases h0 : s.sp = 0
      · simp [h0, Outcome.halts]
      · by_cases h1 : s.sp - 1 < STACK_SIZE <;> simp [h0, h1, Outcome.halts]
    · intro h0
      exact ⟨{ s with opcode := 0x00EE }, by rw [if_pos h0], rfl, rfl, rfl, rfl⟩
  · intro NNN hN hop
    rw [emulateCycle_2NNN rnd s NNN hN hop]
    constructor
    · by_cases h16 : s.sp ≥ STACK_SIZE
      · simp only [if_pos h16, Outcome.halts, true_iff]
        exact h16
      · simp only [if_neg h16, Outcome.halts, false_iff]
        exact h16
    · intro h16
      have h16' : s.sp ≥ STACK_SIZE := h16
      exact ⟨{ s with opcode := 0x2000 + NNN }, by rw [if_pos h16'], rfl, rfl, rfl, rfl⟩

theorem C11_stack_faults_exactly_at_bounds_witness :
    (emulateCycle 0 (demo [0x00, 0xEE] [] 0)).halts ∧
    (emulateCycle 0 (demoStack [0x23, 0x00] [] 0 (List.replicate 16 0x200))).halts :=
  ⟨((C11_stack_faults_exactly_at_bounds 0 (demo [0x00, 0xEE] [] 0)).1 (by decide)).1.2 rfl,
   ((C11_stack_faults_exactly_at_bounds 0
      (demoStack [0x23, 0x00] [] 0 (List.replicate 16 0x200))).2 0x300 (by decide)
      (by decide)).1.2 (by decide)⟩

/-- C12, with the return address as the code computes it: for 0 < sp ≤ 16 one
step on 00EE returns with sp lowered by one and pc equal to the popped value
stack[sp - 1] plus 2 (as a 16-bit value), the instruction after the call that
pushed it. -/
theorem C12_return_pops_and_steps_past_call (rnd : Nat) (s : Chip8) (hsp : 0 < s.sp)
    (hsp16 : s.sp ≤ 16) (hop : s.Fetches 0x00EE) :
    ∃ t, emulateCycle rnd s = .ok t [] ∧ t.sp = s.sp - 1 ∧
      t.pc = (s.stack (s.sp - 1) + 2) % 65536 := by
  have h := emulateCycle_0NEE rnd s 0 (by decide) hop
  simp only [Nat.mul_zero, Nat.add_zero] at h
  have h0 : ¬ s.sp = 0 := by omega
  have h1 : s.sp - 1 < STACK_SIZE := by simp only [STACK_SIZE]; omega
  rw [if_neg h0, if_pos h1] at h
  exact ⟨_, h, rfl, rfl⟩

theorem C12_return_pops_and_steps_past_call_witness :
    ∃ t, emulateCycle 0 (demoStack [0x00, 0xEE] [] 0 [0x300, 0x400]) = .ok t [] ∧
      t.sp = 1 ∧ t.pc = 0x402 :=
  C12_return_pops_and_steps_past_call 0 (demoStack [0x00, 0xEE] [] 0 [0x300, 0x400])
    (by decide) (by decide) (by decide)

/-- C12 as stated fails: with sp = 1 and stack[0] = 0x300 the step on 00EE
returns with pc = 0x302, not with the popped value 0x300. -/
theorem C12_return_is_not_the_popped_value :
    ∃ t, emulateCycle 0 (demoStack [0x00, 0xEE] [] 0 [0x300]) = .ok t [] ∧
      (demoStack [0x00, 0xEE] [] 0 [0x300]).stack
        ((demoStack [0x00, 0xEE] [] 0 [0x300]).sp - 1) = 0x300 ∧
      t.pc = 0x302 ∧
      t.pc ≠ (demoStack [0x00, 0xEE] [] 0 [0x300]).stack
        ((demoStack [0x00, 0xEE] [] 0 [0x300]).sp - 1) := by
  have h := emulateCycle_0NEE 0 (demoStack [0x00, 0xEE] [] 0 [0x300]) 0 (by decide) (by decide)
  rw [if_neg (by decide), if_pos (by decide)] at h
  exact ⟨_, h, by decide, by decide, by decide⟩

/-- C19: with sp < 16, a 2NNN at pc = a and a 00EE at address NNN, two
consecutive steps return without halting and end with pc = a + 2 and the old
sp; registers, memory, I, both timers, the framebuffer and the keypad are
unchanged. -/
theorem C19_call_then_return (rnd rnd' : Nat) (s : Chip8) (NNN : Nat) (hN : NNN < 4096)
    (hsp : s.sp < 16) (hop : s.Fetches (0x2000 + NNN))
    (hret : ({ s with pc := NNN }).Fetches 0x00EE) :
    ∃ t u, emulateCycle rnd s = .ok t [] ∧ emulateCycle rnd' t = .ok u [] ∧
      u.pc = s.pc + 2 ∧ u.sp = s.sp ∧ u.V = s.V ∧ u.memory = s.memory ∧ u.I = s.I ∧
      u.delay_timer = s.delay_timer ∧ u.sound_timer = s.sound_timer ∧
      u.display = s.display ∧ u.keypad = s.keypad := by
  have hpc : s.pc + 1 < 4096 := hop.1
  have h1 := emulateCycle_2NNN rnd s NNN hN hop
  have hns : ¬ s.sp ≥ STACK_SIZE := by simp only [STACK_SIZE]; omega
  rw [if_neg hns] at h1
  have h2 := emulateCycle_0NEE rnd'
    { s with opcode := 0x2000 + NNN, stack := Function.update s.stack s.sp s.pc,
             sp := s.sp + 1, pc := NNN } 0 (by decide) hret
  have h0 : ¬ s.sp + 1 = 0 := by omega
  have h16 : s.sp + 1 - 1 < STACK_SIZE := by simp only [STACK_SIZE]; omega
  simp only [if_neg h0, if_pos h16] at h2
  refine ⟨_, _, h1, h2, ?_, by simp, rfl, rfl, rfl, rfl, rfl, rfl, rfl⟩
  show u16 (Function.update s.stack s.sp s.pc (s.sp + 1 - 1) + 2) = s.pc + 2
  rw [Nat.add_sub_cancel, Function.update_same, u16]
  omega

theorem C19_call_then_return_witness :
    ∃ t u, emulateCycle 0 (demoStack [0x22, 0x06, 0, 0, 0, 0, 0x00, 0xEE] [7] 0 [0x123]) = .ok t [] ∧
      emulateCycle 0 t = .ok u [] ∧
      u.pc = 0x200 + 2 ∧ u.sp = 1 ∧
      u.V = (demoStack [0x22, 0x06, 0, 0, 0, 0, 0x00, 0xEE] [7] 0 [0x123]).V ∧
      u.memory = (demoStack [0x22, 0x06, 0, 0, 0, 0, 0x00, 0xEE] [7] 0 [0x123]).memory ∧
      u.I = 0 ∧ u.delay_timer = 0 ∧ u.sound_timer = 0 ∧
      u.display = (demoStack [0x22, 0x06, 0, 0, 0, 0, 0x00, 0xEE] [7] 0 [0x123]).display ∧
      u.keypad = (demoStack [0x22, 0x06, 0, 0, 0, 0, 0x00, 0xEE] [7] 0 [0x123]).keypad :=
  C19_call_then_return 0 0 (demoStack [0x22, 0x06, 0, 0, 0, 0, 0x00, 0xEE] [7] 0 [0x123]) 0x206
    (by decide) (by decide) (by decide) (by decide)

/-! ## Opcodes outside the table, and 8XY4 into VF -/

/-- Symbolic execution of one cycle on an opcode 5XYN: the low nibble is not
decoded, so every 5XYN runs the skip-if-equal case. -/
theorem emulateCycle_5XYN (rnd : Nat) (s : Chip8) (X Y N : Nat) (hX : X < 16) (hY : Y < 16)
    (hN : N < 16) (hop : s.Fetches (0x5000 + 0x100 * X + 0x10 * Y + N)) :
    emulateCycle rnd s =
      if s.V X = s.V Y then
        .ok { s with opcode := 0x5000 + 0x100 * X + 0x10 * Y + N, pc := u16 (s.pc + 4) } []
      else .ok { s with opcode := 0x5000 + 0x100 * X + 0x10 * Y + N, pc := u16 (s.pc + 2) } [] := by
  have hlt : 0x5000 + 0x100 * X + 0x10 * Y + N < 65536 := by omega
  have hfam : (0x5000 + 0x100 * X + 0x10 * Y + N) / 4096 % 16 = 5 := by omega
  have hXd : (0x5000 + 0x100 * X + 0x10 * Y + N) / 256 % 16 = X := by omega
  have hYd : (0x5000 + 0x100 * X + 0x10 * Y + N) / 16 % 16 = Y := by omega
  rw [emulateCycle, fetchOpcode_of_fetches s _ hlt hop]
  simp only []
  unfold executeOpcode
  dsimp only
  rw [and_F000, and_0F00_shift, and_00F0_shift, hfam, hXd, hYd]
  simp

/-- Symbolic execution of one cycle on an opcode 0NE0: the second nibble is
not decoded, so every 0NE0 clears the framebuffer. -/
theorem emulateCycle_0NE0 (rnd : Nat) (s : Chip8) (N : Nat) (hN : N < 16)
    (hop : s.Fetches (0x00E0 + 0x100 * N)) :
    emulateCycle rnd s =
      .ok { s with opcode := 0x00E0 + 0x100 * N, display := fun _ => 0,
                   pc := u16 (s.pc + 2) } [] := by
  have hlt : 0x00E0 + 0x100 * N < 65536 := by omega
  have hfam : (0x00E0 + 0x100 * N) / 4096 % 16 = 0 := by omega
  have hsub : (0x00E0 + 0x100 * N) % 256 = 0xE0 := by omega
  rw [emulateCycle, fetchOpcode_of_fetches s _ hlt hop]
  simp only []
  rw [executeOpcode_family0 _ _ hfam]
  unfold exec0
  dsimp only
  rw [and_00FF, hsub]
  simp

/-- C13: opcode 5011 is in no row of the opcode table, yet with V0 = V1 the
step advances pc by 4, as 5XY0 does; opcode 01EE is in no row either, yet with
sp = 0 the step halts, as 00EE does. -/
theorem C13_unlisted_opcodes_skip_and_halt :
    (∃ t, emulateCycle 0 (demo [0x50, 0x11] [] 0) = .ok t [] ∧
      (demo [0x50, 0x11] [] 0).pc = 0x200 ∧ t.pc = 0x200 + 4) ∧
    (emulateCycle 0 (demo [0x01, 0xEE] [] 0)).halts := by
  constructor
  · have h := emulateCycle_5XYN 0 (demo [0x50, 0x11] [] 0) 0 1 1 (by decide) (by decide)
      (by decide) (by decide)
    rw [if_pos (by decide)] at h
    exact ⟨_, h, rfl, by decide⟩
  · have h := emulateCycle_0NEE 0 (demo [0x01, 0xEE] [] 0) 1 (by decide) (by decide)
    rw [if_pos (by decide)] at h
    rw [h]
    trivial

/-- C18: opcode 01E0 is neither 00E0 nor a DXYN, yet the step clears the
framebuffer: cell 5, which held 1, holds 0 afterwards. -/
theorem C18_01E0_clears_framebuffer :
    ∃ t, emulateCycle 0 (demoLit [0x01, 0xE0] [] 0 [5]) = .ok t [] ∧
      (demoLit [0x01, 0xE0] [] 0 [5]).display 5 = 1 ∧ t.display 5 = 0 :=
  ⟨_, emulateCycle_0NE0 0 (demoLit [0x01, 0xE0] [] 0 [5]) 1 (by decide) (by decide),
    by decide, rfl⟩

/-- C15, as the code orders the writes: one step on 8FY4 stores the carry in VF
first and the low byte of the sum in VX = VF last, so it returns with
VF = (VF + VY) mod 256, the carry overwritten, and pc advanced by 2. -/
theorem C15_add_into_VF_leaves_low_byte (rnd : Nat) (s : Chip8) (Y : Nat) (hY : Y < 16)
    (hop : s.Fetches (0x8F04 + 0x10 * Y)) :
    ∃ t, emulateCycle rnd s = .ok t [] ∧ t.V 0xF = (s.V 0xF + s.V Y) % 256 ∧
      t.pc = s.pc + 2 := by
  have hpc : s.pc + 1 < 4096 := hop.1
  have e : 0x8F04 + 0x10 * Y = 0x8004 + 0x100 * 0xF + 0x10 * Y := by omega
  rw [e] at hop
  refine ⟨_, emulateCycle_8XY4 rnd s 0xF Y (by decide) hY hop, ?_, ?_⟩
  · simp only [Function.update_same, u8, u16]
    omega
  · simp only [u16]
    omega

theorem C15_add_into_VF_leaves_low_byte_witness :
    ∃ t, emulateCycle 0
        (demo [0x8F, 0x24] [0, 0, 0x90, 0, 0, 0, 0, 0, 0, 0, 0, 0, 0, 0, 0, 0x85] 0) = .ok t [] ∧
      t.V 0xF = 0x15 ∧ t.pc = 0x202 :=
  C15_add_into_VF_leaves_low_byte 0
    (demo [0x8F, 0x24] [0, 0, 0x90, 0, 0, 0, 0, 0, 0, 0, 0, 0, 0, 0, 0, 0x85] 0) 2 (by decide)
    (by decide)

/-- C15 as stated fails: on opcode 8F14 (8XY4 with X = 0xF, Y = 1) with
VF = 0xFF and V1 = 1 the sum is 0x100, so the carry is 1; the step stores the
carry in VF and then the low byte of the sum in VX = VF, which leaves
VF = 0. -/
theorem C15_add_into_VF_keeps_sum_not_carry :
    ∃ t, emulateCycle 0
        (demo [0x8F, 0x14] [0, 1, 0, 0, 0, 0, 0, 0, 0, 0, 0, 0, 0, 0, 0, 0xFF] 0) = .ok t [] ∧
      (demo [0x8F, 0x14] [0, 1, 0, 0, 0, 0, 0, 0, 0, 0, 0, 0, 0, 0, 0, 0xFF] 0).V 0xF
        + (demo [0x8F, 0x14] [0, 1, 0, 0, 0, 0, 0, 0, 0, 0, 0, 0, 0, 0, 0, 0xFF] 0).V 1 = 0x100 ∧
      t.V 0xF = 0 :=
  ⟨_, emulateCycle_8XY4 0 _ 0xF 1 (by decide) (by decide) (by decide), by decide, by decide⟩

/-! ## Shift opcodes (8XY6, 8XYE) -/

/-- Symbolic execution of one cycle on 8XY6. -/
theorem emulateCycle_8XY6 (rnd : Nat) (s : Chip8) (X Y : Nat) (hX : X < 16) (hY : Y < 16)
    (hop : s.Fetches (0x8006 + 0x100 * X + 0x10 * Y)) :
    emulateCycle rnd s = .ok { s with
      opcode := 0x8006 + 0x100 * X + 0x10 * Y
      V := Function.update (Function.update s.V 0xF (s.V X &&& 0x1)) X
        (Function.update s.V 0xF (s.V X &&& 0x1) X >>> 1)
      pc := u16 (s.pc + 2) } [] := by
  have hlt : 0x8006 + 0x100 * X + 0x10 * Y < 65536 := by omega
  have hfam : (0x8006 + 0x100 * X + 0x10 * Y) / 4096 % 16 = 8 := by omega
  have hsub : (0x8006 + 0x100 * X + 0x10 * Y) % 16 = 6 := by omega
  have hXd : (0x8006 + 0x100 * X + 0x10 * Y) / 256 % 16 = X := by omega
  rw [emulateCycle, fetchOpcode_of_fetches s _ hlt hop]
  simp only []
  rw [executeOpcode_family8 _ _ hfam]
  unfold exec8
  dsimp only
  rw [and_000F, and_0F00_shift, hsub, hXd]
  simp

/-- Symbolic execution of one cycle on 8XYE. -/
theorem emulateCycle_8XYE (rnd : Nat) (s : Chip8) (X Y : Nat) (hX : X < 16) (hY : Y < 16)
    (hop : s.Fetches (0x800E + 0x100 * X + 0x10 * Y)) :
    emulateCycle rnd s = .ok { s with
      opcode := 0x800E + 0x100 * X + 0x10 * Y
      V := Function.update (Function.update s.V 0xF ((s.V X &&& 0x80) >>> 7)) X
        (u8 (Function.update s.V 0xF ((s.V X &&& 0x80) >>> 7) X <<< 1))
      pc := u16 (s.pc + 2) } [] := by
  have hlt : 0x800E + 0x100 * X + 0x10 * Y < 65536 := by omega
  have hfam : (0x800E + 0x100 * X + 0x10 * Y) / 4096 % 16 = 8 := by omega
  have hsub : (0x800E + 0x100 * X + 0x10 * Y) % 16 = 14 := by omega
  have hXd : (0x800E + 0x100 * X + 0x10 * Y) / 256 % 16 = X := by omega
  rw [emulateCycle, fetchOpcode_of_fetches s _ hlt hop]
  simp only []
  rw [executeOpcode_family8 _ _ hfam]
  unfold exec8
  dsimp only
  rw [and_000F, and_0F00_shift, hsub, hXd]
  simp

theorem and_one_eq_mod (n : Nat) : n &&& 0x1 = n % 2 := by
  have e : (0x1 : Nat) = 2 ^ 1 - 1 := by norm_num
  rw [e, Nat.and_pow_two_sub_one_eq_mod]

theorem and_80_shift (n : Nat) : (n &&& 0x80) >>> 7 = n / 128 % 2 := by
  rw [shiftRight_and]
  have e : (0x80 >>> 7 : Nat) = 2 ^ 1 - 1 := by decide
  rw [e, Nat.and_pow_two_sub_one_eq_mod, Nat.shiftRight_eq_div_pow]

/-- C17: for X different from 0xF, one step on 8XY6 leaves VF = VX mod 2 and
VX = VX div 2, and one step on 8XYE leaves VF = VX div 128 and
VX = (2 * VX) mod 256, where VX is the value before the step; no other
register changes, and VY does not enter the result. -/
theorem C17_shifts_move_bit_into_VF (rnd : Nat) (s : Chip8) (X Y : Nat) (hwf : s.WF)
    (hX : X < 16) (hXF : X ≠ 0xF) (hY : Y < 16) :
    (s.Fetches (0x8006 + 0x100 * X + 0x10 * Y) →
      ∃ t, emulateCycle rnd s = .ok t [] ∧
        t.V 0xF = s.V X % 2 ∧ t.V X = s.V X / 2 ∧ 2 * t.V X + t.V 0xF = s.V X ∧
        (∀ r, r ≠ X → r ≠ 0xF → t.V r = s.V r)) ∧
    (s.Fetches (0x800E + 0x100 * X + 0x10 * Y) →
      ∃ t, emulateCycle rnd s = .ok t [] ∧
        t.V 0xF = s.V X / 128 ∧ t.V X = (2 * s.V X) % 256 ∧
        256 * t.V 0xF + t.V X = 2 * s.V X ∧
        (∀ r, r ≠ X → r ≠ 0xF → t.V r = s.V r)) := by
  have hx := hwf.V_lt X hX
  constructor
  · intro hop
    refine ⟨_, emulateCycle_8XY6 rnd s X Y hX hY hop, ?_, ?_, ?_, ?_⟩
    · simp only [update_update_ne _ _ _ _ hXF, and_one_eq_mod]
    · simp only [Function.update_same, Function.update_noteq hXF, Nat.shiftRight_eq_div_pow,
        Nat.pow_one]
    · simp only [update_update_ne _ _ _ _ hXF, Function.update_same,
        Function.update_noteq hXF, Nat.shiftRight_eq_div_pow, and_one_eq_mod]
      omega
    · intro r hr hrF
      simp only [Function.update_noteq hr, Function.update_noteq hrF]
  · intro hop
    refine ⟨_, emulateCycle_8XYE rnd s X Y hX hY hop, ?_, ?_, ?_, ?_⟩
    · simp only [update_update_ne _ _ _ _ hXF, and_80_shift]
      omega
    · simp only [Function.update_same, Function.update_noteq hXF, Nat.shiftLeft_eq, u8]
      omega
    · simp only [update_update_ne _ _ _ _ hXF, Function.update_same,
        Function.update_noteq hXF, Nat.shiftLeft_eq, u8, and_80_shift]
      omega
    · intro r hr hrF
      simp only [Function.update_noteq hr, Function.update_noteq hrF]

theorem C17_shifts_move_bit_into_VF_witness :
    (∃ t, emulateCycle 0 (demo [0x80, 0x16] [0x85, 0x33] 0) = .ok t [] ∧
      t.V 0xF = 1 ∧ t.V 0 = 0x42) ∧
    (∃ t, emulateCycle 0 (demo [0x80, 0x1E] [0x85, 0x33] 0) = .ok t [] ∧
      t.V 0xF = 1 ∧ t.V 0 = 0x0A) := by
  constructor
  · obtain ⟨t, ht, h1, h2, _⟩ := (C17_shifts_move_bit_into_VF 0
      (demo [0x80, 0x16] [0x85, 0x33] 0) 0 1
      (demo_WF _ _ _ (by decide) (by decide) (by decide)) (by decide) (by decide)
      (by decide)).1 (by decide)
    exact ⟨t, ht, h1, h2⟩
  · obtain ⟨t, ht, h1, h2, _⟩ := (C17_shifts_move_bit_into_VF 0
      (demo [0x80, 0x1E] [0x85, 0x33] 0) 0 1
      (demo_WF _ _ _ (by decide) (by decide) (by decide)) (by decide) (by decide)
      (by decide)).2 (by decide)
    exact ⟨t, ht, h1, h2⟩

/-! ## Oversized load and the font pointer (FX29) -/

/-- The copy loop of `loadROM` leaves `memory` as soon as the file has more
than `MEMORY_SIZE - 0x200` bytes: iteration 3584 writes `memory[4096]`. -/
theorem loadROM_loop_overflow (buffer : List Nat) (s : Chip8) (n : Nat)
    (hn : MEMORY_SIZE < 0x200 + n) :
    (List.range n).foldlM (loadByte buffer) s = none := by
  induction n with
  | zero => simp only [MEMORY_SIZE] at hn; omega
  | succ n ih =>
    rw [List.range_succ, List.foldlM_append]
    by_cases h : MEMORY_SIZE < 0x200 + n
    · rw [ih h]
      rfl
    · have hle : 0x200 + n ≤ MEMORY_SIZE := by omega
      have hnot : ¬ (0x200 + n < MEMORY_SIZE) := by omega
      rw [loadROM_loop buffer s n hle]
      simp only [Option.bind_eq_bind, Option.some_bind, List.foldlM_cons, loadByte, if_neg hnot,
        Option.none_bind]

theorem loadROM_too_large (b : List Nat) (s : Chip8) (h : 4096 - 0x200 < b.length) :
    loadROM (some b) s = .undefined := by
  have hn : MEMORY_SIZE < 0x200 + b.length := by simp only [MEMORY_SIZE]; omega
  simp only [loadROM, loadROM_loop_overflow b s b.length hn]

/-- C14, as the code behaves: `loadROM` makes no size check; for a file of more
than 4096 - 0x200 bytes its copy loop reaches `memory[4096]`, outside the
array, so the call has no defined result and is not a rejected load; the one
load that fails without being fatal is a file that cannot be opened, which is
reported and leaves the engine as it was. -/
theorem C14_loadROM_has_no_size_check (s : Chip8) (b : List Nat)
    (h : 4096 - 0x200 < b.length) :
    loadROM (some b) s = .undefined ∧ (∀ t out, loadROM (some b) s ≠ .ok t out) ∧
      loadROM none s = .ok s [.romOpenFailed] := by
  have e := loadROM_too_large b s h
  refine ⟨e, ?_, rfl⟩
  intro t out hok
  rw [e] at hok
  cases hok

theorem C14_loadROM_has_no_size_check_witness :
    loadROM (some (List.replicate 4000 0xFF)) ctor = .undefined ∧
      (∀ t out, loadROM (some (List.replicate 4000 0xFF)) ctor ≠ .ok t out) ∧
      loadROM none ctor = .ok ctor [.romOpenFailed] :=
  C14_loadROM_has_no_size_check ctor (List.replicate 4000 0xFF)
    (by rw [List.length_replicate]; omega)

/-- C14 as stated fails: loading a file of 3585 bytes into the constructed
engine is not rejected with the engine left as it was; the copy loop reaches
`memory[0x200 + 3584] = memory[4096]`, one past the array. -/
theorem C14_loadROM_oversize_overruns_memory :
    (List.replicate 3585 0).length = 3585 ∧
    loadROM (some (List.replicate 3585 0)) ctor = .undefined ∧
    ¬ ∃ out, loadROM (some (List.replicate 3585 0)) ctor = .ok ctor out := by
  have e : loadROM (some (List.replicate 3585 0)) ctor = .undefined :=
    loadROM_too_large _ _ (by rw [List.length_replicate]; omega)
  refine ⟨List.length_replicate _ _, e, ?_⟩
  rintro ⟨out, hok⟩
  rw [e] at hok
  cases hok

theorem loadFontset_loop (s : Chip8) (n : Nat) :
    (List.range n).foldl
      (fun t i => { t with memory := Function.update t.memory (0x50 + i) (fontset.getD i 0) }) s =
      { s with memory := fun a =>
        if 0x50 ≤ a ∧ a < 0x50 + n then fontset.getD (a - 0x50) 0 else s.memory a } := by
  induction n with
  | zero =>
    simp only [List.range_zero, List.foldl_nil]
    have : (fun a => if 0x50 ≤ a ∧ a < 0x50 + 0 then fontset.getD (a - 0x50) 0
        else s.memory a) = s.memory := by
      funext a
      have : ¬ (0x50 ≤ a ∧ a < 0x50 + 0) := by omega
      rw [if_neg this]
    rw [this]
  | succ n ih =>
    rw [List.range_succ, List.foldl_append, ih]
    simp only [List.foldl_cons, List.foldl_nil]
    congr 1
    funext a
    by_cases h : a = 0x50 + n
    · subst h
      simp
    · rw [Function.update_noteq h]
      by_cases h2 : 0x50 ≤ a ∧ a < 0x50 + n
      · have h3 : 0x50 ≤ a ∧ a < 0x50 + (n + 1) := by omega
        rw [if_pos h2, if_pos h3]
      · have h3 : ¬ (0x50 ≤ a ∧ a < 0x50 + (n + 1)) := by omega
        rw [if_neg h2, if_neg h3]

/-- The constructed engine: the 80 font bytes at 0x50 .. 0x9F, zero elsewhere,
pc = 0x200. -/
theorem ctor_eq :
    ctor =
      { memory := fun a => if 0x50 ≤ a ∧ a < 0x50 + 80 then fontset.getD (a - 0x50) 0 else 0
        V := fun _ => 0, I := 0, pc := 0x200, stack := fun _ => 0, sp := 0, delay_timer := 0
        sound_timer := 0, display := fun _ => 0, keypad := fun _ => 0, opcode := 0 } := by
  rw [ctor, loadFontset, loadFontset_loop]

/-- Symbolic execution of one cycle on FX29. -/
theorem emulateCycle_FX29 (rnd : Nat) (s : Chip8) (X : Nat) (hX : X < 16)
    (hop : s.Fetches (0xF029 + 0x100 * X)) :
    emulateCycle rnd s = .ok { s with
      opcode := 0xF029 + 0x100 * X, I := u16 (s.V X * 5), pc := u16 (s.pc + 2) } [] := by
  have hlt : 0xF029 + 0x100 * X < 65536 := by omega
  have hfam : (0xF029 + 0x100 * X) / 4096 % 16 = 15 := by omega
  have hsub : (0xF029 + 0x100 * X) % 256 = 0x29 := by omega
  have hXd : (0xF029 + 0x100 * X) / 256 % 16 = X := by omega
  rw [emulateCycle, fetchOpcode_of_fetches s _ hlt hop]
  simp only []
  rw [executeOpcode_familyF _ _ hfam]
  unfold execF
  dsimp only
  rw [and_00FF, and_0F00_shift, hsub, hXd]
  simp

/-- C16: on the constructed engine with the program F0 29 loaded, V0 = 0 and the
step on F029 sets I = 0 * 5 = 0; the five bytes at I are all 0, whereas the
glyph of digit 0 that the constructor loaded lies at 0x50 and is
F0 90 90 90 F0. -/
theorem C16_FX29_points_below_the_font :
    ∃ s t, loadROM (some [0xF0, 0x29]) ctor = .ok s [.romLoaded] ∧ s.V 0 = 0 ∧
      emulateCycle 0 s = .ok t [] ∧ t.I = 0 ∧
      (∀ k, k < 5 → t.memory (t.I + k) = 0) ∧
      t.memory 0x50 = 0xF0 ∧ t.memory 0x51 = 0x90 ∧ t.memory 0x52 = 0x90 ∧
      t.memory 0x53 = 0x90 ∧ t.memory 0x54 = 0xF0 := by
  have hload : loadROM (some [0xF0, 0x29]) ctor = .ok
      { ctor with
        memory := fun a =>
          if 0x200 ≤ a ∧ a < 0x200 + [0xF0, 0x29].length then
            u8 ([0xF0, 0x29].getD (a - 0x200) 0)
          else ctor.memory a }
      [.romLoaded] := by
    simp only [loadROM, loadROM_loop [0xF0, 0x29] ctor [0xF0, 0x29].length (by decide)]
  rw [ctor_eq] at hload
  refine ⟨_, _, by rw [ctor_eq]; exact hload, rfl,
    emulateCycle_FX29 0 _ 0 (by decide) (by decide), by decide, ?_, by decide, by decide,
    by decide, by decide, by decide⟩
  intro k hk
  interval_cases k <;> decide

/-! ## Register save and restore (FX55, FX65) -/

/-- The store loop of FX55 over the registers below `n`. -/
theorem storeReg_loop (s : Chip8) (n : Nat) (hn : s.I + n ≤ MEMORY_SIZE) :
    (List.range n).foldlM storeReg s =
      some { s with memory := fun a =>
        if s.I ≤ a ∧ a < s.I + n then s.V (a - s.I) else s.memory a } := by
  induction n with
  | zero =>
    simp only [List.range_zero, List.foldlM_nil]
    have : (fun a => if s.I ≤ a ∧ a < s.I + 0 then s.V (a - s.I) else s.memory a)
        = s.memory := by
      funext a
      have : ¬ (s.I ≤ a ∧ a < s.I + 0) := by omega
      rw [if_neg this]
    rw [this]; rfl
  | succ n ih =>
    have hlt : s.I + n < MEMORY_SIZE := by omega
    rw [List.range_succ, List.foldlM_append, ih (by omega)]
    simp only [Option.some_bind, List.foldlM_cons, List.foldlM_nil, storeReg, if_pos hlt]
    simp only [if_pos hlt, Option.bind_eq_bind, Option.some_bind, Option.pure_def,
      Option.some.injEq]
    congr 1
    funext a
    by_cases h : a = s.I + n
    · subst h
      simp
    · rw [Function.update_noteq h]
      by_cases h2 : s.I ≤ a ∧ a < s.I + n
      · have h3 : s.I ≤ a ∧ a < s.I + (n + 1) := by omega
        rw [if_pos h2, if_pos h3]
      · have h3 : ¬ (s.I ≤ a ∧ a < s.I + (n + 1)) := by omega
        rw [if_neg h2, if_neg h3]

/-- The load loop of FX65 over the registers below `n`. -/
theorem loadReg_loop (s : Chip8) (n : Nat) (hn : s.I + n ≤ MEMORY_SIZE) :
    (List.range n).foldlM loadReg s =
      some { s with V := fun r => if r < n then s.memory (s.I + r) else s.V r } := by
  induction n with
  | zero =>
    simp only [List.range_zero, List.foldlM_nil]
    have : (fun r => if r < 0 then s.memory (s.I + r) else s.V r) = s.V := by
      funext r
      have : ¬ (r < 0) := by omega
      rw [if_neg this]
    rw [this]; rfl
  | succ n ih =>
    have hlt : s.I + n < MEMORY_SIZE := by omega
    rw [List.range_succ, List.foldlM_append, ih (by omega)]
    simp only [Option.some_bind, List.foldlM_cons, List.foldlM_nil, loadReg, if_pos hlt]
    simp only [if_pos hlt, Option.bind_eq_bind, Option.some_bind, Option.pure_def,
      Option.some.injEq]
    congr 1
    funext r
    by_cases h : r = n
    · subst h
      simp
    · rw [Function.update_noteq h]
      by_cases h2 : r < n
      · have h3 : r < n + 1 := by omega
        rw [if_pos h2, if_pos h3]
      · have h3 : ¬ (r < n + 1) := by omega
        rw [if_neg h2, if_neg h3]

/-- Symbolic execution of one cycle on FX55 when memory[I .. I + X] lies
inside memory. -/
theorem emulateCycle_FX55 (rnd : Nat) (s : Chip8) (X : Nat) (hX : X < 16)
    (hI : s.I + X < 4096) (hop : s.Fetches (0xF055 + 0x100 * X)) :
    emulateCycle rnd s = .ok { s with
      opcode := 0xF055 + 0x100 * X
      memory := fun a => if s.I ≤ a ∧ a < s.I + (X + 1) then s.V (a - s.I) else s.memory a
      pc := u16 (s.pc + 2) } [] := by
  have hlt : 0xF055 + 0x100 * X < 65536 := by omega
  have hfam : (0xF055 + 0x100 * X) / 4096 % 16 = 15 := by omega
  have hsub : (0xF055 + 0x100 * X) % 256 = 0x55 := by omega
  have hXd : (0xF055 + 0x100 * X) / 256 % 16 = X := by omega
  have hloop := storeReg_loop { s with opcode := 0xF055 + 0x100 * X } (X + 1)
    (by simp only [MEMORY_SIZE]; omega)
  rw [emulateCycle, fetchOpcode_of_fetches s _ hlt hop]
  simp only []
  rw [executeOpcode_familyF _ _ hfam]
  unfold execF
  dsimp only
  rw [and_00FF, and_0F00_shift, hsub, hXd, hloop]
  simp

/-- Symbolic execution of one cycle on FX65 when memory[I .. I + X] lies
inside memory. -/
theorem emulateCycle_FX65 (rnd : Nat) (s : Chip8) (X : Nat) (hX : X < 16)
    (hI : s.I + X < 4096) (hop : s.Fetches (0xF065 + 0x100 * X)) :
    emulateCycle rnd s = .ok { s with
      opcode := 0xF065 + 0x100 * X
      V := fun r => if r < X + 1 then s.memory (s.I + r) else s.V r
      pc := u16 (s.pc + 2) } [] := by
  have hlt : 0xF065 + 0x100 * X < 65536 := by omega
  have hfam : (0xF065 + 0x100 * X) / 4096 % 16 = 15 := by omega
  have hsub : (0xF065 + 0x100 * X) % 256 = 0x65 := by omega
  have hXd : (0xF065 + 0x100 * X) / 256 % 16 = X := by omega
  have hloop := loadReg_loop { s with opcode := 0xF065 + 0x100 * X } (X + 1)
    (by simp only [MEMORY_SIZE]; omega)
  rw [emulateCycle, fetchOpcode_of_fetches s _ hlt hop]
  simp only []
  rw [executeOpcode_familyF _ _ hfam]
  unfold execF
  dsimp only
  rw [and_00FF, and_0F00_shift, hsub, hXd, hloop]
  simp

/-- C20: with I + X inside memory, one step on FX55 returns with I and every
register unchanged and memory changed at most in [I, I + X]; from any later
state whose next instruction is FX65 with the same X, whose I is the same and
whose memory[I .. I + X] is what FX55 left, whatever its registers hold, one
step returns with V0..VX equal to their values when FX55 ran and every
register above VX as it was before the FX65. -/
theorem C20_save_restore_round_trip (rnd rnd' : Nat) (s : Chip8) (X : Nat) (hX : X < 16)
    (hI : s.I + X < 4096) (hop : s.Fetches (0xF055 + 0x100 * X)) :
    ∃ t, emulateCycle rnd s = .ok t [] ∧ t.I = s.I ∧ t.V = s.V ∧ t.pc = s.pc + 2 ∧
      (∀ a, ¬ (s.I ≤ a ∧ a ≤ s.I + X) → t.memory a = s.memory a) ∧
      ∀ s' : Chip8, s'.Fetches (0xF065 + 0x100 * X) → s'.I = t.I →
        (∀ i, i ≤ X → s'.memory (s.I + i) = t.memory (s.I + i)) →
        ∃ u, emulateCycle rnd' s' = .ok u [] ∧
          (∀ i, i ≤ X → u.V i = s.V i) ∧ (∀ r, X < r → u.V r = s'.V r) := by
  have hpc : s.pc + 1 < 4096 := hop.1
  refine ⟨_, emulateCycle_FX55 rnd s X hX hI hop, rfl, rfl, ?_, ?_, ?_⟩
  · simp only [u16]; omega
  · intro a ha
    have ha' : ¬ (s.I ≤ a ∧ a < s.I + (X + 1)) := by omega
    simp only [if_neg ha']
  · intro s' hop' hI' hmem
    have hIs : s'.I = s.I := hI'
    refine ⟨_, emulateCycle_FX65 rnd' s' X hX (by rw [hIs]; exact hI) hop', ?_, ?_⟩
    · intro i hi
      have hi' : i < X + 1 := by omega
      have hin : s.I ≤ s.I + i ∧ s.I + i < s.I + (X + 1) := by omega
      simp only [if_pos hi', hIs, hmem i hi, if_pos hin, Nat.add_sub_cancel_left]
    · intro r hr
      have hr' : ¬ (r < X + 1) := by omega
      simp only [if_neg hr']

theorem C20_save_restore_round_trip_witness :
    ∃ t u, emulateCycle 0 (demo [0xF2, 0x55, 0xF2, 0x65] [11, 22, 33, 44] 0x300) = .ok t [] ∧
      emulateCycle 0 { t with V := fun _ => 0xAA } = .ok u [] ∧
      u.V 0 = 11 ∧ u.V 1 = 22 ∧ u.V 2 = 33 ∧ u.V 3 = 0xAA := by
  obtain ⟨t, ht, hI, _, hpc, hmem, h2⟩ := C20_save_restore_round_trip 0 0
    (demo [0xF2, 0x55, 0xF2, 0x65] [11, 22, 33, 44] 0x300) 2 (by decide) (by decide) (by decide)
  have hf : ({ t with V := fun _ => 0xAA } : Chip8).Fetches (0xF065 + 0x100 * 2) := by
    unfold Fetches
    show t.pc + 1 < MEMORY_SIZE ∧ t.memory t.pc = _ ∧ t.memory (t.pc + 1) = _
    rw [hpc, hmem _ (by decide), hmem _ (by decide)]
    decide
  obtain ⟨u, hu, hlow, hhigh⟩ := h2 { t with V := fun _ => 0xAA } hf rfl (fun _ _ => rfl)
  exact ⟨t, u, ht, hu, hlow 0 (by decide), hlow 1 (by decide), hlow 2 (by decide),
    hhigh 3 (by decide)⟩

/-! ## Stack-pointer invariant -/

theorem foldlM_sp (f : Chip8 → Nat → Option Chip8)
    (hf : ∀ s i t, f s i = some t → t.sp = s.sp) :
    ∀ (l : List Nat) (s t : Chip8), l.foldlM f s = some t → t.sp = s.sp := by
  intro l
  induction l with
  | nil =>
    intro s t h
    simp only [List.foldlM_nil, Option.pure_def, Option.some.injEq] at h
    rw [← h]
  | cons i l ih =>
    intro s t h
    rw [List.foldlM_cons] at h
    cases hfi : f s i with
    | none => rw [hfi] at h; simp at h
    | some u =>
      rw [hfi] at h
      simp only [Option.bind_eq_bind, Option.some_bind] at h
      rw [ih u t h, hf s i u hfi]

theorem DrawFrame.sp_eq {s t : Chip8} (h : DrawFrame s t) : t.sp = s.sp := by
  have e := h.1
  rw [e]

theorem drawRow_sp (X Y : Nat) (s : Chip8) (r : Nat) (t : Chip8)
    (h : drawRow X Y s r = some t) : t.sp = s.sp := by
  unfold drawRow at h
  split at h
  · simp only [Option.some.injEq] at h
    rw [← h]
    exact (drawCols X Y _ r s 8 (by omega)).1.sp_eq
  · simp at h

theorem storeReg_sp (s : Chip8) (i : Nat) (t : Chip8) (h : storeReg s i = some t) :
    t.sp = s.sp := by
  unfold storeReg at h
  split at h
  · simp only [Option.some.injEq] at h
    rw [← h]
  · simp at h

theorem loadReg_sp (s : Chip8) (i : Nat) (t : Chip8) (h : loadReg s i = some t) :
    t.sp = s.sp := by
  unfold loadReg at h
  split at h
  · simp only [Option.some.injEq] at h
    rw [← h]
  · simp at h

theorem loadByte_sp (buffer : List Nat) (s : Chip8) (i : Nat) (t : Chip8)
    (h : loadByte buffer s i = some t) : t.sp = s.sp := by
  unfold loadByte at h
  split at h
  · simp only [Option.some.injEq] at h
    rw [← h]
  · simp at h

theorem spOutcome_keep (s t : Chip8) (out : List Console) (h : t.sp = s.sp) :
    SpStepOutcome s (.ok t out) := Or.inl h

theorem spOutcome_exited (s t : Chip8) (out : List Console) :
    SpStepOutcome s (.exited t out) := trivial

theorem spOutcome_undefined (s : Chip8) : SpStepOutcome s .undefined := trivial

theorem spOutcome_ite (s : Chip8) (c : Prop) [Decidable c] (a b : Outcome)
    (ha : c → SpStepOutcome s a) (hb : ¬ c → SpStepOutcome s b) :
    SpStepOutcome s (if c then a else b) := by
  split
  · exact ha (by assumption)
  · exact hb (by assumption)

theorem exec0_sp (s : Chip8) : SpStepOutcome s (exec0 s) := by
  unfold exec0
  dsimp only
  apply spOutcome_ite
  · intro _; exact spOutcome_keep _ _ _ rfl
  intro _
  apply spOutcome_ite
  · intro _
    apply spOutcome_ite
    · intro _; exact spOutcome_exited _ _ _
    intro h0
    apply spOutcome_ite
    · intro _; exact Or.inr (Or.inr ⟨by omega, rfl⟩)
    · intro _; exact spOutcome_undefined _
  · intro _; exact spOutcome_keep _ _ _ rfl

theorem exec8_sp (s : Chip8) : SpStepOutcome s (exec8 s) := by
  unfold exec8
  dsimp only
  repeat' (first
    | exact spOutcome_keep _ _ _ rfl
    | (apply spOutcome_ite <;> intro _))

theorem execD_sp (s : Chip8) : SpStepOutcome s (execD s) := by
  unfold execD
  dsimp only
  split
  · rename_i u hu
    have e := foldlM_sp _ (drawRow_sp _ _) _ _ u hu
    exact spOutcome_keep _ _ _ e
  · exact spOutcome_undefined _

theorem execE_sp (s : Chip8) : SpStepOutcome s (execE s) := by
  unfold execE
  dsimp only
  repeat' (first
    | exact spOutcome_keep _ _ _ rfl
    | exact spOutcome_undefined _
    | (apply spOutcome_ite <;> intro _))

theorem execF_sp (s : Chip8) : SpStepOutcome s (execF s) := by
  unfold execF
  dsimp only
  repeat' (first
    | exact spOutcome_keep _ _ _ rfl
    | exact spOutcome_undefined _
    | (apply spOutcome_ite <;> intro _)
    | split)
  · rename_i t ht
    exact spOutcome_keep _ _ _ (foldlM_sp _ storeReg_sp _ _ t ht)
  · rename_i t ht
    exact spOutcome_keep _ _ _ (foldlM_sp _ loadReg_sp _ _ t ht)

theorem executeOpcode_sp (rnd : Nat) (s : Chip8) : SpStepOutcome s (executeOpcode rnd s) := by
  unfold executeOpcode
  dsimp only
  repeat' (first
    | exact exec0_sp s
    | exact exec8_sp s
    | exact execD_sp s
    | exact execE_sp s
    | exact execF_sp s
    | exact spOutcome_keep _ _ _ rfl
    | exact spOutcome_exited _ _ _
    | exact Or.inr (Or.inl ⟨by simp only [STACK_SIZE] at *; omega, rfl⟩)
    | (apply spOutcome_ite <;> intro _))

/-- One `emulateCycle` call that returns moves sp by at most one step and
keeps it inside 0..16 when it was there. -/
theorem emulateCycle_sp (rnd : Nat) (s t : Chip8) (out : List Console)
    (h : emulateCycle rnd s = .ok t out) : SpStep s t := by
  unfold emulateCycle at h
  unfold fetchOpcode at h
  split at h
  · rename_i u hu
    split at hu
    · simp only [Option.some.injEq] at hu
      have hs := executeOpcode_sp rnd u
      rw [h] at hs
      rw [← hu] at hs
      exact hs
    · simp at hu
  · cases h

theorem updateTimers_sp (s : Chip8) : (updateTimers s).1.sp = s.sp := by
  unfold updateTimers
  by_cases hd : s.delay_timer > 0 <;> by_cases hs : s.sound_timer > 0 <;> simp [hd, hs]

theorem handleInput_sp (pressed released : Bool) (key : Option Nat) (s : Chip8) :
    (handleInput pressed released key s).sp = s.sp := by
  unfold handleInput
  split
  · split <;> rfl
  · rfl

theorem ctor_sp : ctor.sp = 0 := by
  rw [ctor_eq]

theorem loadROM_sp (file : Option (List Nat)) (s : Chip8) (out : List Console)
    (h : loadROM file ctor = .ok s out) : s.sp = 0 := by
  unfold loadROM at h
  split at h
  · split at h
    · rename_i t ht
      cases h
      rw [foldlM_sp _ (loadByte_sp _) _ _ _ ht, ctor_sp]
    · cases h
  · cases h
    exact ctor_sp

/-- Every reachable state has sp in 0..16. -/
theorem Reachable.sp_le {s : Chip8} (h : Reachable s) : s.sp ≤ 16 := by
  induction h with
  | load file s out hl => rw [loadROM_sp file s out hl]; omega
  | cycle rnd s t out _ hc ih =>
    rcases emulateCycle_sp rnd s t out hc with h1 | ⟨h1, h2⟩ | ⟨h1, h2⟩ <;> omega
  | timers s _ ih => rw [updateTimers_sp]; exact ih
  | input pressed released key s _ ih => rw [handleInput_sp]; exact ih

/-- C21, for runs that stay inside the arrays: every state reached from the
constructed engine by a program load that returns (a file of at most 3584
bytes, or one that cannot be opened) and then any finite sequence of
`emulateCycle` calls that return (they neither halt nor index outside an
array), `updateTimers` calls and keypad updates has sp in 0..16; so in such a
state a step on a return opcode (00EE, or any 0NEE) that does not halt reads
stack[sp - 1] with 0 < sp and sp - 1 in 0..15, and a step on 2NNN that does
not halt writes stack[sp] with sp in 0..15. -/
theorem C21_sp_stays_within_stack (s : Chip8) (h : Reachable s) :
    s.sp ≤ 16 ∧
    (∀ rnd N, N < 16 → s.Fetches (0x00EE + 0x100 * N) → ¬ (emulateCycle rnd s).halts →
      0 < s.sp ∧ s.sp - 1 < 16 ∧
      ∃ t, emulateCycle rnd s = .ok t [] ∧ t.sp = s.sp - 1 ∧
        t.pc = u16 (s.stack (s.sp - 1) + 2)) ∧
    (∀ rnd NNN, NNN < 4096 → s.Fetches (0x2000 + NNN) → ¬ (emulateCycle rnd s).halts →
      s.sp < 16 ∧
      ∃ t, emulateCycle rnd s = .ok t [] ∧ t.sp = s.sp + 1 ∧
        t.stack = Function.update s.stack s.sp s.pc) := by
  have hsp := h.sp_le
  refine ⟨hsp, ?_, ?_⟩
  · intro rnd N hN hop hnh
    have e := emulateCycle_0NEE rnd s N hN hop
    by_cases h0 : s.sp = 0
    · rw [e, if_pos h0] at hnh
      exact absurd trivial hnh
    · have h1 : s.sp - 1 < STACK_SIZE := by simp only [STACK_SIZE]; omega
      rw [if_neg h0, if_pos h1] at e
      exact ⟨by omega, by omega, _, e, rfl, rfl⟩
  · intro rnd NNN hN hop hnh
    have e := emulateCycle_2NNN rnd s NNN hN hop
    by_cases h16 : s.sp ≥ STACK_SIZE
    · rw [e, if_pos h16] at hnh
      exact absurd trivial hnh
    · rw [if_neg h16] at e
      simp only [STACK_SIZE] at h16
      exact ⟨by omega, _, e, rfl, rfl⟩

theorem C21_sp_stays_within_stack_witness :
    ∃ s t, loadROM (some [0x22, 0x04, 0x00, 0x00, 0x00, 0xEE]) ctor = .ok s [.romLoaded] ∧
      emulateCycle 0 s = .ok t [] ∧ t.sp = 1 ∧ t.sp ≤ 16 := by
  have hload : loadROM (some [0x22, 0x04, 0x00, 0x00, 0x00, 0xEE]) ctor = .ok
      { ctor with
        memory := fun a =>
          if 0x200 ≤ a ∧ a < 0x200 + [0x22, 0x04, 0x00, 0x00, 0x00, 0xEE].length then
            u8 ([0x22, 0x04, 0x00, 0x00, 0x00, 0xEE].getD (a - 0x200) 0)
          else ctor.memory a }
      [.romLoaded] := by
    simp only [loadROM, loadROM_loop [0x22, 0x04, 0x00, 0x00, 0x00, 0xEE] ctor
      [0x22, 0x04, 0x00, 0x00, 0x00, 0xEE].length (by decide)]
  have hstep := emulateCycle_2NNN 0
    { ctor with
      memory := fun a =>
        if 0x200 ≤ a ∧ a < 0x200 + [0x22, 0x04, 0x00, 0x00, 0x00, 0xEE].length then
          u8 ([0x22, 0x04, 0x00, 0x00, 0x00, 0xEE].getD (a - 0x200) 0)
        else ctor.memory a }
    0x204 (by decide) (by rw [ctor_eq]; decide)
  rw [if_neg (by rw [ctor_eq]; decide)] at hstep
  have hreach := Reachable.cycle 0 _ _ [] (Reachable.load _ _ _ hload) hstep
  exact ⟨_, _, hload, hstep, by rw [ctor_eq], (C21_sp_stays_within_stack _ hreach).1⟩

/-! ## Runs that leave an array -/

/-- Symbolic execution of one cycle on ANNN. -/
theorem emulateCycle_ANNN (rnd : Nat) (s : Chip8) (NNN : Nat) (hN : NNN < 4096)
    (hop : s.Fetches (0xA000 + NNN)) :
    emulateCycle rnd s =
      .ok { s with opcode := 0xA000 + NNN, I := NNN, pc := u16 (s.pc + 2) } [] := by
  have hlt : 0xA000 + NNN < 65536 := by omega
  have hfam : (0xA000 + NNN) / 4096 % 16 = 10 := by omega
  have hnnn : (0xA000 + NNN) % 4096 = NNN := by omega
  rw [emulateCycle, fetchOpcode_of_fetches s _ hlt hop]
  simp only []
  unfold executeOpcode
  dsimp only
  rw [and_F000, and_0FFF, hfam, hnnn]
  simp

/-- Symbolic execution of one cycle on 6XNN. -/
theorem emulateCycle_6XNN (rnd : Nat) (s : Chip8) (X NN : Nat) (hX : X < 16) (hNN : NN < 256)
    (hop : s.Fetches (0x6000 + 0x100 * X + NN)) :
    emulateCycle rnd s =
      .ok { s with opcode := 0x6000 + 0x100 * X + NN, V := Function.update s.V X NN,
                   pc := u16 (s.pc + 2) } [] := by
  have hlt : 0x6000 + 0x100 * X + NN < 65536 := by omega
  have hfam : (0x6000 + 0x100 * X + NN) / 4096 % 16 = 6 := by omega
  have hXd : (0x6000 + 0x100 * X + NN) / 256 % 16 = X := by omega
  have hNd : (0x6000 + 0x100 * X + NN) % 256 = NN := by omega
  rw [emulateCycle, fetchOpcode_of_fetches s _ hlt hop]
  simp only []
  unfold executeOpcode
  dsimp only
  rw [and_F000, and_0F00_shift, and_00FF, hfam, hXd, hNd]
  simp

/-- Symbolic execution of one cycle on FX1E. -/
theorem emulateCycle_FX1E (rnd : Nat) (s : Chip8) (X : Nat) (hX : X < 16)
    (hop : s.Fetches (0xF01E + 0x100 * X)) :
    emulateCycle rnd s = .ok { s with
      opcode := 0xF01E + 0x100 * X, I := u16 (s.I + s.V X), pc := u16 (s.pc + 2) } [] := by
  have hlt : 0xF01E + 0x100 * X < 65536 := by omega
  have hfam : (0xF01E + 0x100 * X) / 4096 % 16 = 15 := by omega
  have hsub : (0xF01E + 0x100 * X) % 256 = 0x1E := by omega
  have hXd : (0xF01E + 0x100 * X) / 256 % 16 = X := by omega
  rw [emulateCycle, fetchOpcode_of_fetches s _ hlt hop]
  simp only []
  rw [executeOpcode_familyF _ _ hfam]
  unfold execF
  dsimp only
  rw [and_00FF, and_0F00_shift, hsub, hXd]
  simp

/-- The store loop of FX55 leaves `memory` when it runs at least once and
`I + n` passes `MEMORY_SIZE`. -/
theorem storeReg_loop_overflow (s : Chip8) (n : Nat) (hpos : 0 < n)
    (hn : MEMORY_SIZE < s.I + n) :
    (List.range n).foldlM storeReg s = none := by
  induction n with
  | zero => omega
  | succ n ih =>
    rw [List.range_succ, List.foldlM_append]
    by_cases h : s.I + n ≤ MEMORY_SIZE
    · have hnot : ¬ (s.I + n < MEMORY_SIZE) := by omega
      rw [storeReg_loop s n h]
      simp only [Option.bind_eq_bind, Option.some_bind, List.foldlM_cons, storeReg, if_neg hnot,
        Option.none_bind]
    · by_cases h0 : n = 0
      · subst h0
        have hnot : ¬ (s.I + 0 < MEMORY_SIZE) := by omega
        simp only [List.range_zero, List.foldlM_nil, Option.pure_def, Option.bind_eq_bind,
          Option.some_bind, List.foldlM_cons, storeReg, if_neg hnot, Option.none_bind]
      · rw [ih (by omega) (by omega)]
        rfl

/-- One cycle on FX55 whose last cell `memory[I + X]` lies outside memory has
no defined result. -/
theorem emulateCycle_FX55_overrun (rnd : Nat) (s : Chip8) (X : Nat) (hX : X < 16)
    (hI : 4096 ≤ s.I + X) (hop : s.Fetches (0xF055 + 0x100 * X)) :
    emulateCycle rnd s = .undefined := by
  have hlt : 0xF055 + 0x100 * X < 65536 := by omega
  have hfam : (0xF055 + 0x100 * X) / 4096 % 16 = 15 := by omega
  have hsub : (0xF055 + 0x100 * X) % 256 = 0x55 := by omega
  have hXd : (0xF055 + 0x100 * X) / 256 % 16 = X := by omega
  have hloop := storeReg_loop_overflow { s with opcode := 0xF055 + 0x100 * X } (X + 1)
    (by omega) (by simp only [MEMORY_SIZE]; omega)
  rw [emulateCycle, fetchOpcode_of_fetches s _ hlt hop]
  simp only []
  rw [executeOpcode_familyF _ _ hfam]
  unfold execF
  dsimp only
  rw [and_00FF, and_0F00_shift, hsub, hXd, hloop]
  simp

/-- The load of a file that opens returns exactly when the file has at most
`MEMORY_SIZE - 0x200` bytes. -/
theorem loadROM_returns_iff (b : List Nat) (s : Chip8) :
    (∃ t out, loadROM (some b) s = .ok t out) ↔ b.length ≤ 4096 - 0x200 := by
  constructor
  · rintro ⟨t, out, h⟩
    by_contra hgt
    rw [loadROM_too_large b s (by omega)] at h
    cases h
  · intro hle
    have hn : 0x200 + b.length ≤ MEMORY_SIZE := by simp only [MEMORY_SIZE]; omega
    exact ⟨_, _, by simp only [loadROM, loadROM_loop b s b.length hn]; rfl⟩

/-- A file of at most `MEMORY_SIZE - 0x200` bytes loads into `loadedEngine`. -/
theorem loadROM_loadedEngine (prog : List Nat) (h : prog.length ≤ 4096 - 0x200) :
    loadROM (some prog) ctor = .ok (loadedEngine prog) [.romLoaded] := by
  have hn : 0x200 + prog.length ≤ MEMORY_SIZE := by simp only [MEMORY_SIZE]; omega
  simp only [loadROM, loadROM_loop prog ctor prog.length hn]
  rfl

/-- A load leaves pc at 0x200. -/
theorem loadedEngine_pc (prog : List Nat) : (loadedEngine prog).pc = 0x200 := by
  rw [loadedEngine, ctor_eq]

/-- C21 as stated fails on runs that leave an array.  Loading a file of 4000
bytes is a program load that does not halt, yet it yields no state with sp in
0..16: the copy loop passes `memory[4095]` and runs on over the members that
`chip8.h` declares after `memory` (V, I, pc, stack, sp).  And the loaded
program AFFF 6035 F01E 60FF F055 reaches, by four steps that return, a state
with I = 4148 and V0 = 0xFF whose next step F055 does not halt and stores V0
at `memory[4148]`, 52 bytes past the end of the array, which is the offset of
sp in that declaration order; that step yields no state with sp in 0..16
either. -/
theorem C21_runs_that_leave_an_array_have_no_state_in_range :
    (loadROM (some (List.replicate 4000 0xFF)) ctor = .undefined ∧
      ¬ (loadROM (some (List.replicate 4000 0xFF)) ctor).halts ∧
      ¬ ∃ s out, loadROM (some (List.replicate 4000 0xFF)) ctor = .ok s out ∧ s.sp ≤ 16) ∧
    (∃ s, Reachable s ∧ s.I = 4148 ∧ s.V 0 = 0xFF ∧ s.Fetches 0xF055 ∧
      emulateCycle 0 s = .undefined ∧ ¬ (emulateCycle 0 s).halts ∧
      ¬ ∃ t out, emulateCycle 0 s = .ok t out ∧ t.sp ≤ 16) := by
  constructor
  · have e : loadROM (some (List.replicate 4000 0xFF)) ctor = .undefined :=
      loadROM_too_large _ _ (by rw [List.length_replicate]; omega)
    refine ⟨e, ?_, ?_⟩
    · rw [e]; exact id
    · rintro ⟨s, out, h, _⟩
      rw [e] at h
      cases h
  · have hload := loadROM_loadedEngine
      [0xAF, 0xFF, 0x60, 0x35, 0xF0, 0x1E, 0x60, 0xFF, 0xF0, 0x55] (by decide)
    have r0 := Reachable.load _ _ _ hload
    have hpc0 := loadedEngine_pc [0xAF, 0xFF, 0x60, 0x35, 0xF0, 0x1E, 0x60, 0xFF, 0xF0, 0x55]
    generalize ht0 :
      loadedEngine [0xAF, 0xFF, 0x60, 0x35, 0xF0, 0x1E, 0x60, 0xFF, 0xF0, 0x55] = t0 at r0 hpc0
    have m0 : ∀ k, k < 10 → t0.memory (0x200 + k) =
        [0xAF, 0xFF, 0x60, 0x35, 0xF0, 0x1E, 0x60, 0xFF, 0xF0, 0x55].getD k 0 := by
      intro k hk
      rw [← ht0]
      interval_cases k <;> decide
    have f0 : t0.Fetches (0xA000 + 0xFFF) :=
      ⟨by rw [hpc0]; decide, by rw [hpc0]; exact m0 0 (by decide),
        by rw [hpc0]; exact m0 1 (by decide)⟩
    obtain ⟨t1, h1, hI1, hpc1, hm1⟩ : ∃ t, emulateCycle 0 t0 = .ok t [] ∧ t.I = 0xFFF ∧
        t.pc = 0x202 ∧ t.memory = t0.memory :=
      ⟨_, emulateCycle_ANNN 0 t0 0xFFF (by decide) f0, rfl,
        by show u16 (t0.pc + 2) = 0x202; rw [hpc0]; rfl, rfl⟩
    have f1 : t1.Fetches (0x6000 + 0x100 * 0 + 0x35) :=
      ⟨by rw [hpc1]; decide, by rw [hpc1, hm1]; exact m0 2 (by decide),
        by rw [hpc1, hm1]; exact m0 3 (by decide)⟩
    obtain ⟨t2, h2, hI2, hV2, hpc2, hm2⟩ : ∃ t, emulateCycle 0 t1 = .ok t [] ∧ t.I = 0xFFF ∧
        t.V 0 = 0x35 ∧ t.pc = 0x204 ∧ t.memory = t0.memory :=
      ⟨_, emulateCycle_6XNN 0 t1 0 0x35 (by decide) (by decide) f1, hI1,
        by simp, by show u16 (t1.pc + 2) = 0x204; rw [hpc1]; rfl, hm1⟩
    have f2 : t2.Fetches (0xF01E + 0x100 * 0) :=
      ⟨by rw [hpc2]; decide, by rw [hpc2, hm2]; exact m0 4 (by decide),
        by rw [hpc2, hm2]; exact m0 5 (by decide)⟩
    obtain ⟨t3, h3, hI3, hpc3, hm3⟩ : ∃ t, emulateCycle 0 t2 = .ok t [] ∧ t.I = 4148 ∧
        t.pc = 0x206 ∧ t.memory = t0.memory :=
      ⟨_, emulateCycle_FX1E 0 t2 0 (by decide) f2,
        by show u16 (t2.I + t2.V 0) = 4148; rw [hI2, hV2]; rfl,
        by show u16 (t2.pc + 2) = 0x206; rw [hpc2]; rfl, hm2⟩
    have f3 : t3.Fetches (0x6000 + 0x100 * 0 + 0xFF) :=
      ⟨by rw [hpc3]; decide, by rw [hpc3, hm3]; exact m0 6 (by decide),
        by rw [hpc3, hm3]; exact m0 7 (by decide)⟩
    obtain ⟨t4, h4, hI4, hV4, hpc4, hm4⟩ : ∃ t, emulateCycle 0 t3 = .ok t [] ∧ t.I = 4148 ∧
        t.V 0 = 0xFF ∧ t.pc = 0x208 ∧ t.memory = t0.memory :=
      ⟨_, emulateCycle_6XNN 0 t3 0 0xFF (by decide) (by decide) f3, hI3,
        by simp, by show u16 (t3.pc + 2) = 0x208; rw [hpc3]; rfl, hm3⟩
    have f4 : t4.Fetches (0xF055 + 0x100 * 0) :=
      ⟨by rw [hpc4]; decide, by rw [hpc4, hm4]; exact m0 8 (by decide),
        by rw [hpc4, hm4]; exact m0 9 (by decide)⟩
    have r4 : Reachable t4 :=
      Reachable.cycle 0 _ _ [] (Reachable.cycle 0 _ _ [] (Reachable.cycle 0 _ _ []
        (Reachable.cycle 0 _ _ [] r0 h1) h2) h3) h4
    have e := emulateCycle_FX55_overrun 0 t4 0 (by decide) (by rw [hI4]; decide) f4
    refine ⟨t4, r4, hI4, hV4, f4, e, ?_, ?_⟩
    · rw [e]; exact id
    · rintro ⟨t, out, h, _⟩
      rw [e] at h
      cases h

end Chip8
